import Mathlib

/-!
Verification development for the tps-npm data-access layer
(`@toopro/db`): the cache/index base service (`cache-base.service.ts`),
the entity-service orchestrator (`service-base.ts`), the server broker
(`broker.service.ts`) and the canonical query builder (`query.type.ts`).

The TypeScript classes are shallowly embedded as pure Lean functions over
explicit state records.  JavaScript `Map`s are modelled as
insertion-ordered association lists on which `set` updates in place and
appends new keys at the end, exactly as JS `Map` does; plain objects used
as hashes are modelled the same way (their key-enumeration order is never
relevant to the properties proved here).  Entity ids and indexed field
values (JS `string | number`) are modelled as `Nat`; `undefined` is
`Option.none` and an explicit JS `null` inside the cache is the inner
`none` of an `Option (Option _)`.
-/

set_option maxHeartbeats 1000000

/-- JS `Map.get` / object property read: first binding for the key,
`none` when absent (JS `undefined`). -/
def jsGet {α β : Type} [DecidableEq α] : List (α × β) → α → Option β
  | [], _ => none
  | (k, v) :: rest, a => if k = a then some v else jsGet rest a

/-- JS `Map.set` / property write: update the existing binding in place
(keeping its position) or append a new binding at the end. -/
def jsSet {α β : Type} [DecidableEq α] : List (α × β) → α → β → List (α × β)
  | [], a, b => [(a, b)]
  | (k, v) :: rest, a, b =>
      if k = a then (k, b) :: rest else (k, v) :: jsSet rest a b

/-- JS `Map.delete` / `delete obj[k]`: remove the binding for the key. -/
def jsDelete {α β : Type} [DecidableEq α] : List (α × β) → α → List (α × β)
  | [], _ => []
  | (k, v) :: rest, a => if k = a then rest else (k, v) :: jsDelete rest a

theorem jsGet_jsSet_self {α β : Type} [DecidableEq α]
    (l : List (α × β)) (a : α) (b : β) : jsGet (jsSet l a b) a = some b := by
  induction l with
  | nil => simp [jsSet, jsGet]
  | cons kv rest ih =>
      obtain ⟨k, v⟩ := kv
      by_cases h : k = a <;> simp [jsSet, jsGet, h, ih]

theorem jsGet_jsSet_other {α β : Type} [DecidableEq α]
    (l : List (α × β)) (a a' : α) (b : β) (h : a' ≠ a) :
    jsGet (jsSet l a b) a' = jsGet l a' := by
  have hne : ¬ a = a' := fun hh => h hh.symm
  induction l with
  | nil => simp [jsSet, jsGet, hne]
  | cons kv rest ih =>
      obtain ⟨k, v⟩ := kv
      by_cases hk : k = a
      · subst hk
        simp [jsSet, jsGet, hne]
      · by_cases hk' : k = a' <;> simp [jsSet, jsGet, hk, hk', ih, h]

theorem jsGet_jsDelete_of_ne {α β : Type} [DecidableEq α]
    (l : List (α × β)) (a a' : α) (h : a' ≠ a) :
    jsGet (jsDelete l a) a' = jsGet l a' := by
  have hne : ¬ a = a' := fun hh => h hh.symm
  induction l with
  | nil => simp [jsDelete]
  | cons kv rest ih =>
      obtain ⟨k, v⟩ := kv
      by_cases hk : k = a
      · subst hk
        simp [jsDelete, jsGet, hne]
      · by_cases hk' : k = a' <;> simp [jsDelete, jsGet, hk, hk', ih, h]

theorem jsGet_jsDelete_none {α β : Type} [DecidableEq α]
    (l : List (α × β)) (a a' : α) (h : jsGet l a' = none) :
    jsGet (jsDelete l a) a' = none := by
  induction l with
  | nil => simpa [jsDelete] using h
  | cons kv rest ih =>
      obtain ⟨k, v⟩ := kv
      by_cases hk : k = a
      · subst hk
        by_cases hk' : k = a' <;> simp_all [jsDelete, jsGet]
      · by_cases hk' : k = a' <;> simp_all [jsDelete, jsGet, hk]

theorem length_jsDelete_le {α β : Type} [DecidableEq α]
    (l : List (α × β)) (a : α) : (jsDelete l a).length ≤ l.length := by
  induction l with
  | nil => simp [jsDelete]
  | cons kv rest ih =>
      obtain ⟨k, v⟩ := kv
      by_cases hk : k = a <;> simp [jsDelete, hk] <;> omega

theorem length_jsSet_le {α β : Type} [DecidableEq α]
    (l : List (α × β)) (a : α) (b : β) :
    (jsSet l a b).length ≤ l.length + 1 := by
  induction l with
  | nil => simp [jsSet]
  | cons kv rest ih =>
      obtain ⟨k, v⟩ := kv
      by_cases hk : k = a <;> simp [jsSet, hk] <;> omega

theorem mem_jsSet {α β : Type} [DecidableEq α]
    {l : List (α × β)} {a : α} {b : β} {p : α × β}
    (h : p ∈ jsSet l a b) : p ∈ l ∨ p = (a, b) := by
  induction l with
  | nil => simpa [jsSet] using h
  | cons kv rest ih =>
      obtain ⟨k, v⟩ := kv
      by_cases hk : k = a
      · subst hk
        rw [jsSet, if_pos rfl] at h
        rcases List.mem_cons.mp h with h' | h'
        · exact Or.inr h'
        · exact Or.inl (List.mem_cons_of_mem _ h')
      · rw [jsSet, if_neg hk] at h
        rcases List.mem_cons.mp h with h' | h'
        · exact Or.inl (List.mem_cons.mpr (Or.inl h'))
        · rcases ih h' with h'' | h''
          · exact Or.inl (List.mem_cons_of_mem _ h'')
          · exact Or.inr h''

theorem mem_jsDelete {α β : Type} [DecidableEq α]
    {l : List (α × β)} {a : α} {p : α × β}
    (h : p ∈ jsDelete l a) : p ∈ l := by
  induction l with
  | nil => simpa [jsDelete] using h
  | cons kv rest ih =>
      obtain ⟨k, v⟩ := kv
      by_cases hk : k = a
      · subst hk
        rw [jsDelete, if_pos rfl] at h
        exact List.mem_cons_of_mem _ h
      · rw [jsDelete, if_neg hk] at h
        rcases List.mem_cons.mp h with h' | h'
        · exact List.mem_cons.mpr (Or.inl h')
        · exact List.mem_cons_of_mem _ (ih h')

/-! ## Cache/Index layer — `CacheBaseService<T>` (cache-base.service.ts)

The per-service cache state.  `cachedItems : id → T | null` is the primary
map (`none` entry value = JS `null`, absent key = unknown); `cacheIndex`
maps an indexed field name to a plain-object hash `fieldValue → id`.
Items are modelled with a `Nat` id (the embedding fixes
`cacheIDField = "id"`, as every claim scenario does) and an association
list of the remaining fields with `Nat` values; an absent field is JS
`undefined`. -/

structure Item where
  id : Nat
  fields : List (String × Nat)
deriving DecidableEq, Repr

structure CacheState where
  cache : Bool
  cacheIDField : String
  cacheIndex : List (String × List (Nat × Nat))
  cachedItems : List (Nat × Option Item)
  cacheMaxItems : Nat
  cacheLastLoadedItem : Option Item
  cacheLastLoadedItemID : Option Nat
deriving DecidableEq, Repr

/-- The field defaults of a freshly constructed `CacheBaseService`. -/
def initCache : CacheState :=
  { cache := false
    cacheIDField := ""
    cacheIndex := []
    cachedItems := []
    cacheMaxItems := 200
    cacheLastLoadedItem := none
    cacheLastLoadedItemID := none }

/-- `cacheEnable(indexBy, idPropName, maxItems)`: turn the cache on and
(re)create an empty index bucket for each requested field. -/
def cacheEnable (s : CacheState) (indexBy : List String) (idPropName : String)
    (maxItems : Nat) : CacheState :=
  { s with
    cache := true
    cacheIDField := idPropName
    cacheMaxItems := maxItems
    cacheIndex := indexBy.foldl (fun ix f => jsSet ix f []) s.cacheIndex }

/-- `cacheDelete(id)`: drop the primary entry, scrub the id from every
index bucket, and clear the last-loaded shortcut when it points at it. -/
def cacheDelete (s : CacheState) (id : Nat) : CacheState :=
  if !s.cache then s else
  { s with
    cachedItems := jsDelete s.cachedItems id
    cacheIndex := s.cacheIndex.map (fun fi => (fi.1, fi.2.filter (fun p => p.2 ≠ id)))
    cacheLastLoadedItem :=
      if s.cacheLastLoadedItemID = some id then none else s.cacheLastLoadedItem
    cacheLastLoadedItemID :=
      if s.cacheLastLoadedItemID = some id then none else s.cacheLastLoadedItemID }

/-- `cacheSaveIndexByField(fieldName, value, id)`: no-op for a
`null`/`undefined` value, otherwise create the bucket when missing and
store `index[fieldName][value] = id`. -/
def cacheSaveIndexByField (s : CacheState) (fieldName : String)
    (value : Option Nat) (id : Nat) : CacheState :=
  match value with
  | none => s
  | some v =>
      let bucket := (jsGet s.cacheIndex fieldName).getD []
      { s with cacheIndex := jsSet s.cacheIndex fieldName (jsSet bucket v id) }

/-- The eviction loop of `cacheMaintenance`: walk the insertion-ordered
key list, deleting entries, and stop as soon as the size is back within
`cacheMaxItems`. -/
def cacheMaintLoop : CacheState → List Nat → CacheState
  | s, [] => s
  | s, k :: ks =>
      let s' := cacheDelete s k
      if s'.cachedItems.length ≤ s'.cacheMaxItems then s' else cacheMaintLoop s' ks

/-- `cacheMaintenance()`: early out when strictly below the bound, else
evict oldest-inserted entries. -/
def cacheMaintenance (s : CacheState) : CacheState :=
  if s.cachedItems.length < s.cacheMaxItems then s
  else cacheMaintLoop s (s.cachedItems.map Prod.fst)

/-- JS truthiness of a `string|number|undefined` field value modelled as
`Option Nat` (`0` and `''` are falsy). -/
def jsTruthyNum : Option Nat → Bool
  | some n => n ≠ 0
  | none => false

/-- The `for(const indexByField of this.cacheIndex.keys())` loop inside
`cacheSet`: unset `addToIndexBy` when it equals an existing index field,
skip fields absent on the item, and index the rest. -/
def cacheSetIndexLoop : CacheState → Item → List String → Option String →
    CacheState × Option String
  | s, _, [], a => (s, a)
  | s, item, f :: fs, a =>
      let a' := if a = some f then none else a
      match jsGet item.fields f with
      | none => cacheSetIndexLoop s item fs a'
      | some v =>
          cacheSetIndexLoop (cacheSaveIndexByField s f (some v) item.id) item fs a'

/-- `cacheSet(item, addToIndexBy?)`: no-op when the cache is off; runs
maintenance when the size already exceeds the bound; records the
last-loaded shortcut; deletes a pre-existing entry for the id (which, as
in the source, also clears the just-set shortcut); stores the item;
updates every configured index; finally adds the extra `addToIndexBy`
index when requested, the field is truthy on the item, and it was not
already among the index fields. -/
def cacheSet (s : CacheState) (item : Item) (addToIndexBy : Option String) :
    CacheState :=
  if !s.cache then s else
  let s1 := if s.cachedItems.length > s.cacheMaxItems then cacheMaintenance s else s
  let saveItemId := item.id
  let s2 := { s1 with
              cacheLastLoadedItemID := some saveItemId
              cacheLastLoadedItem := some item }
  let s3 := if (jsGet s2.cachedItems saveItemId).isSome
            then cacheDelete s2 saveItemId else s2
  let s4 := { s3 with cachedItems := jsSet s3.cachedItems saveItemId (some item) }
  let r := cacheSetIndexLoop s4 item (s4.cacheIndex.map Prod.fst) addToIndexBy
  match r.2 with
  | some f =>
      if jsTruthyNum (jsGet item.fields f)
      then cacheSaveIndexByField r.1 f (jsGet item.fields f) saveItemId
      else r.1
  | none => r.1

/-- `cacheSetNullItem(id, fieldName?, value?)`: store an explicit `null`
under the id; when a truthy field name, a non-null value and an existing
bucket for that field are given, index the null id as well.  The
last-loaded shortcut is left untouched. -/
def cacheSetNullItem (s : CacheState) (id : Nat) (fieldName : Option String)
    (value : Option Nat) : CacheState :=
  if !s.cache then s else
  let s1 := { s with cachedItems := jsSet s.cachedItems id none }
  match fieldName, value with
  | some f, some v =>
      if f ≠ "" ∧ (jsGet s1.cacheIndex f).isSome
      then cacheSaveIndexByField s1 f (some v) id
      else s1
  | _, _ => s1

/-- `cacheGet(id) → T | null | undefined` (`some (some it)` / `some none`
/ `none`): checks the last-loaded shortcut first. -/
def cacheGet (s : CacheState) (id : Nat) : Option (Option Item) :=
  if !s.cache then none else
  if s.cacheLastLoadedItemID = some id then some s.cacheLastLoadedItem
  else jsGet s.cachedItems id

/-- `cacheGetByField(fieldName, value)`: resolve the id through the
field's index bucket, then defer to `cacheGet`. -/
def cacheGetByField (s : CacheState) (fieldName : String) (value : Nat) :
    Option (Option Item) :=
  if !s.cache then none else
  match jsGet s.cacheIndex fieldName with
  | none => none
  | some bucket =>
      match jsGet bucket value with
      | some id => cacheGet s id
      | none => none

/-! ### Frame lemmas for the cache operations -/

theorem cacheDelete_cache (s : CacheState) (id : Nat) :
    (cacheDelete s id).cache = s.cache := by
  unfold cacheDelete; split <;> rfl

theorem cacheDelete_max (s : CacheState) (id : Nat) :
    (cacheDelete s id).cacheMaxItems = s.cacheMaxItems := by
  unfold cacheDelete; split <;> rfl

theorem cacheDelete_items_on (s : CacheState) (id : Nat) (h : s.cache = true) :
    (cacheDelete s id).cachedItems = jsDelete s.cachedItems id := by
  simp [cacheDelete, h]

theorem cacheSaveIndexByField_items (s : CacheState) (f : String)
    (v : Option Nat) (id : Nat) :
    (cacheSaveIndexByField s f v id).cachedItems = s.cachedItems := by
  unfold cacheSaveIndexByField; cases v <;> rfl

theorem cacheSaveIndexByField_cache (s : CacheState) (f : String)
    (v : Option Nat) (id : Nat) :
    (cacheSaveIndexByField s f v id).cache = s.cache := by
  unfold cacheSaveIndexByField; cases v <;> rfl

theorem cacheSaveIndexByField_last (s : CacheState) (f : String)
    (v : Option Nat) (id : Nat) :
    (cacheSaveIndexByField s f v id).cacheLastLoadedItemID = s.cacheLastLoadedItemID := by
  unfold cacheSaveIndexByField; cases v <;> rfl

theorem cacheSetIndexLoop_items (item : Item) :
    ∀ (fs : List String) (s : CacheState) (a : Option String),
    (cacheSetIndexLoop s item fs a).1.cachedItems = s.cachedItems := by
  intro fs
  induction fs with
  | nil => intro s a; rfl
  | cons f fs ih =>
      intro s a
      unfold cacheSetIndexLoop
      cases h : jsGet item.fields f <;>
        simp [ih, cacheSaveIndexByField_items]

theorem cacheSetIndexLoop_last (item : Item) :
    ∀ (fs : List String) (s : CacheState) (a : Option String),
    (cacheSetIndexLoop s item fs a).1.cacheLastLoadedItemID = s.cacheLastLoadedItemID := by
  intro fs
  induction fs with
  | nil => intro s a; rfl
  | cons f fs ih =>
      intro s a
      unfold cacheSetIndexLoop
      cases h : jsGet item.fields f <;>
        simp [ih, cacheSaveIndexByField_last]

theorem cacheMaintLoop_cache : ∀ (ks : List Nat) (s : CacheState),
    (cacheMaintLoop s ks).cache = s.cache := by
  intro ks
  induction ks with
  | nil => intro s; rfl
  | cons k ks ih =>
      intro s
      unfold cacheMaintLoop
      dsimp only
      split
      · exact cacheDelete_cache s k
      · rw [ih, cacheDelete_cache]

theorem cacheMaintLoop_max : ∀ (ks : List Nat) (s : CacheState),
    (cacheMaintLoop s ks).cacheMaxItems = s.cacheMaxItems := by
  intro ks
  induction ks with
  | nil => intro s; rfl
  | cons k ks ih =>
      intro s
      unfold cacheMaintLoop
      dsimp only
      split
      · exact cacheDelete_max s k
      · rw [ih, cacheDelete_max]

/-! ### Size bound for `cacheSet` (claim C2) -/

theorem cacheMaintLoop_len :
    ∀ (l : List (Nat × Option Item)) (s : CacheState),
    s.cache = true → s.cachedItems = l →
    (cacheMaintLoop s (l.map Prod.fst)).cachedItems.length ≤ s.cacheMaxItems := by
  intro l
  induction l with
  | nil =>
      intro s hc hl
      simp [cacheMaintLoop, hl]
  | cons kv rest ih =>
      intro s hc hl
      obtain ⟨k, v⟩ := kv
      have hdel : (cacheDelete s k).cachedItems = rest := by
        rw [cacheDelete_items_on s k hc, hl]
        simp [jsDelete]
      show (cacheMaintLoop s (k :: rest.map Prod.fst)).cachedItems.length ≤ _
      unfold cacheMaintLoop
      dsimp only
      split
      · next hle =>
          rw [hdel] at hle
          rw [hdel]
          rw [cacheDelete_max] at hle
          exact hle
      · next hgt =>
          have := ih (cacheDelete s k)
            (by rw [cacheDelete_cache]; exact hc) hdel
          rw [cacheDelete_max] at this
          exact this

theorem cacheMaintenance_len (s : CacheState) (h : s.cache = true) :
    (cacheMaintenance s).cachedItems.length ≤
      max s.cacheMaxItems s.cachedItems.length := by
  unfold cacheMaintenance
  split
  · exact le_max_of_le_right (le_refl _)
  · exact le_max_of_le_left (cacheMaintLoop_len s.cachedItems s h rfl)

theorem length_jsDelete_jsSet (l : List (Nat × Option Item)) (a : Nat)
    (b : Option Item) :
    (jsSet (jsDelete l a) a b).length ≤ l.length + 1 :=
  le_trans (length_jsSet_le _ a b) (by
    have := length_jsDelete_le l a
    omega)

theorem cacheSet_items_bound (s : CacheState) (item : Item) (a : Option String)
    (h : s.cache = true) :
    (cacheSet s item a).cachedItems.length ≤ s.cacheMaxItems + 1 := by
  unfold cacheSet
  rw [h]
  dsimp only
  have hs1 : (if s.cachedItems.length > s.cacheMaxItems then cacheMaintenance s
      else s).cachedItems.length ≤ s.cacheMaxItems ∧
      (if s.cachedItems.length > s.cacheMaxItems then cacheMaintenance s
      else s).cacheMaxItems = s.cacheMaxItems ∧
      (if s.cachedItems.length > s.cacheMaxItems then cacheMaintenance s
      else s).cache = true := by
    split
    · next hgt =>
        refine ⟨?_, ?_, ?_⟩
        · unfold cacheMaintenance
          split
          · omega
          · exact cacheMaintLoop_len s.cachedItems s h rfl
        · unfold cacheMaintenance
          split
          · rfl
          · exact cacheMaintLoop_max _ _
        · unfold cacheMaintenance
          split
          · exact h
          · rw [cacheMaintLoop_cache]; exact h
    · next hle => exact ⟨by omega, rfl, h⟩
  set s1 := if s.cachedItems.length > s.cacheMaxItems then cacheMaintenance s else s with hs1def
  obtain ⟨hlen1, hmax1, hc1⟩ := hs1
  set s2 : CacheState :=
    { s1 with cacheLastLoadedItemID := some item.id
              cacheLastLoadedItem := some item } with hs2def
  have hlen2 : s2.cachedItems.length ≤ s.cacheMaxItems := hlen1
  have hmax2 : s2.cacheMaxItems = s.cacheMaxItems := hmax1
  have hc2 : s2.cache = true := hc1
  set s3 := if (jsGet s2.cachedItems item.id).isSome then cacheDelete s2 item.id else s2
    with hs3def
  have hlen3 : s3.cachedItems.length ≤ s.cacheMaxItems := by
    rw [hs3def]
    split
    · rw [cacheDelete_items_on _ _ hc2]
      exact le_trans (length_jsDelete_le _ _) hlen2
    · exact hlen2
  have hlen4 : (jsSet s3.cachedItems item.id (some item)).length ≤
      s.cacheMaxItems + 1 := by
    have := length_jsSet_le s3.cachedItems item.id (some item)
    omega
  have hfinal : ∀ (r : CacheState × Option String),
      r = cacheSetIndexLoop
            { s3 with cachedItems := jsSet s3.cachedItems item.id (some item) }
            item
            (({ s3 with cachedItems := jsSet s3.cachedItems item.id (some item) } :
                CacheState).cacheIndex.map Prod.fst) a →
      (match r.2 with
       | some f =>
           if jsTruthyNum (jsGet item.fields f)
           then cacheSaveIndexByField r.1 f (jsGet item.fields f) item.id
           else r.1
       | none => r.1).cachedItems.length ≤ s.cacheMaxItems + 1 := by
    intro r hr
    have hitems : r.1.cachedItems = jsSet s3.cachedItems item.id (some item) := by
      rw [hr, cacheSetIndexLoop_items]
    have hpost : ∀ (c : CacheState) (o : Option String),
        (match o with
         | some f =>
             if jsTruthyNum (jsGet item.fields f)
             then cacheSaveIndexByField c f (jsGet item.fields f) item.id
             else c
         | none => c).cachedItems = c.cachedItems := by
      intro c o
      cases o with
      | none => rfl
      | some f =>
          dsimp only
          split
          · exact cacheSaveIndexByField_items c f _ item.id
          · rfl
    rw [hpost, hitems]
    exact hlen4
  exact hfinal _ rfl

/-- The spec's C2 scenario: cache enabled with `maxItems = 2`, then items
with ids 1, 2, 3 inserted in that order. -/
def cacheAfterThreeInserts : CacheState :=
  cacheSet (cacheSet (cacheSet (cacheEnable initCache [] "id" 2)
    ⟨1, []⟩ none) ⟨2, []⟩ none) ⟨3, []⟩ none

/-- C2 (counterexample): with `maxItems = 2`, after `cacheSet` of ids
1, 2, 3 the first item has NOT been evicted — `cacheGet 1` returns the
stored item, not `undefined`, and the primary map holds 3 > 2 entries,
because `cacheSet` runs maintenance only when the size already exceeds
the bound before the insert. -/
theorem claimC2_counterexample :
    cacheGet cacheAfterThreeInserts 1 = some (some ⟨1, []⟩)
    ∧ cacheGet cacheAfterThreeInserts 1 ≠ none
    ∧ cacheAfterThreeInserts.cachedItems.length = 3
    ∧ ¬ cacheAfterThreeInserts.cachedItems.length ≤ cacheAfterThreeInserts.cacheMaxItems := by
  decide

/-- C2 (amended): eviction is deferred by one insert.  In the scenario
`cacheGet 1` still returns item 1 and `cacheGet 3` returns item 3; the
next insert (id 4) evicts the oldest id 1; and in general, after any
`cacheSet` on an enabled cache the primary map holds at most
`maxItems + 1` entries. -/
theorem claimC2_theorem :
    cacheGet cacheAfterThreeInserts 3 = some (some ⟨3, []⟩)
    ∧ cacheGet cacheAfterThreeInserts 1 = some (some ⟨1, []⟩)
    ∧ cacheGet (cacheSet cacheAfterThreeInserts ⟨4, []⟩ none) 1 = none
    ∧ (∀ (s : CacheState) (item : Item) (a : Option String),
        s.cache = true →
        (cacheSet s item a).cachedItems.length ≤ s.cacheMaxItems + 1) := by
  refine ⟨by decide, by decide, by decide, ?_⟩
  intro s item a h
  exact cacheSet_items_bound s item a h

/-- Witness for `claimC2_theorem` at a concrete enabled cache. -/
theorem claimC2_witness :
    (cacheEnable initCache [] "id" 2).cache = true
    ∧ (cacheSet (cacheEnable initCache [] "id" 2) ⟨1, []⟩ none).cachedItems.length ≤
        (cacheEnable initCache [] "id" 2).cacheMaxItems + 1 :=
  ⟨by decide, claimC2_theorem.2.2.2 (cacheEnable initCache [] "id" 2) ⟨1, []⟩ none
    (by decide)⟩

/-- C10: while `cacheEnable` has never been called (`cache = false`),
every public cache operation is inert: the getters return `undefined`
and the mutators leave the whole state unchanged. -/
theorem claimC10_theorem :
    ∀ (s : CacheState) (item : Item) (a : Option String) (id : Nat)
      (fieldName : String) (value : Nat) (f : Option String) (v : Option Nat),
    s.cache = false →
    cacheGet s id = none
    ∧ cacheGetByField s fieldName value = none
    ∧ cacheSet s item a = s
    ∧ cacheSetNullItem s id f v = s
    ∧ cacheDelete s id = s := by
  intro s item a id fieldName value f v h
  refine ⟨?_, ?_, ?_, ?_, ?_⟩ <;>
    simp [cacheGet, cacheGetByField, cacheSet, cacheSetNullItem, cacheDelete, h]

/-- Witness for `claimC10_theorem` on the initial (never-enabled) state. -/
theorem claimC10_witness :
    initCache.cache = false
    ∧ (cacheGet initCache 7 = none
       ∧ cacheGetByField initCache "f" 1 = none
       ∧ cacheSet initCache ⟨7, []⟩ none = initCache
       ∧ cacheSetNullItem initCache 7 none none = initCache
       ∧ cacheDelete initCache 7 = initCache) :=
  ⟨rfl, claimC10_theorem initCache ⟨7, []⟩ none 7 "f" 1 none none rfl⟩

/-! ### Index soundness (claim C9) -/

theorem jsGet_mem {α β : Type} [DecidableEq α]
    {l : List (α × β)} {a : α} {b : β} (h : jsGet l a = some b) : (a, b) ∈ l := by
  induction l with
  | nil => simp [jsGet] at h
  | cons kv rest ih =>
      obtain ⟨k, v⟩ := kv
      by_cases hk : k = a
      · subst hk
        rw [jsGet, if_pos rfl] at h
        obtain rfl : v = b := by injection h
        exact List.mem_cons_self _ _
      · rw [jsGet, if_neg hk] at h
        exact List.mem_cons_of_mem _ (ih h)

theorem jsGet_jsSet_isSome {α β : Type} [DecidableEq α]
    (l : List (α × β)) (a a' : α) (b : β) (h : (jsGet l a').isSome = true) :
    (jsGet (jsSet l a b) a').isSome = true := by
  by_cases hk : a' = a
  · subst hk; simp [jsGet_jsSet_self]
  · rw [jsGet_jsSet_other l a a' b hk]; exact h

/-- The invariant of claim C9: every id stored as a value in any
secondary index bucket is also a key of the primary `cachedItems` map
(bound either to a real item or to an explicit null). -/
def cacheIndexSound (s : CacheState) : Bool :=
  s.cacheIndex.all (fun fi => fi.2.all (fun p => (jsGet s.cachedItems p.2).isSome))

theorem cacheIndexSound_iff (s : CacheState) :
    cacheIndexSound s = true ↔
    ∀ fi ∈ s.cacheIndex, ∀ p ∈ fi.2, (jsGet s.cachedItems p.2).isSome = true := by
  simp [cacheIndexSound, List.all_eq_true]

theorem sound_cacheDelete (s : CacheState) (id : Nat)
    (h : cacheIndexSound s = true) : cacheIndexSound (cacheDelete s id) = true := by
  unfold cacheDelete
  split
  · exact h
  · rw [cacheIndexSound_iff]
    intro fi hfi p hp
    simp only [List.mem_map] at hfi
    obtain ⟨fi0, hfi0, rfl⟩ := hfi
    simp only [List.mem_filter] at hp
    obtain ⟨hp0, hpne⟩ := hp
    have := (cacheIndexSound_iff s).mp h fi0 hfi0 p hp0
    have hne : p.2 ≠ id := by simpa using hpne
    simp only []
    rw [jsGet_jsDelete_of_ne _ _ _ hne]
    exact this

theorem sound_cacheEnable (s : CacheState) (indexBy : List String)
    (idProp : String) (m : Nat) (h : cacheIndexSound s = true) :
    cacheIndexSound (cacheEnable s indexBy idProp m) = true := by
  have hmem : ∀ (fs : List String) (m0 : List (String × List (Nat × Nat)))
      (fi : String × List (Nat × Nat)),
      fi ∈ fs.foldl (fun ix f => jsSet ix f []) m0 → fi ∈ m0 ∨ fi.2 = [] := by
    intro fs
    induction fs with
    | nil => intro m0 fi hfi; exact Or.inl hfi
    | cons f fs ih =>
        intro m0 fi hfi
        rcases ih (jsSet m0 f []) fi hfi with h' | h'
        · rcases mem_jsSet h' with h'' | h''
          · exact Or.inl h''
          · exact Or.inr (by rw [h''])
        · exact Or.inr h'
  rw [cacheIndexSound_iff]
  intro fi hfi p hp
  rcases hmem indexBy s.cacheIndex fi hfi with h' | h'
  · exact (cacheIndexSound_iff s).mp h fi h' p hp
  · rw [h'] at hp
    simp at hp

theorem sound_cacheSaveIndexByField (s : CacheState) (f : String)
    (v : Option Nat) (id : Nat) (h : cacheIndexSound s = true)
    (hid : (jsGet s.cachedItems id).isSome = true) :
    cacheIndexSound (cacheSaveIndexByField s f v id) = true := by
  unfold cacheSaveIndexByField
  cases v with
  | none => exact h
  | some v =>
      rw [cacheIndexSound_iff]
      intro fi hfi p hp
      simp only [] at hfi
      rcases mem_jsSet hfi with h' | h'
      · exact (cacheIndexSound_iff s).mp h fi h' p hp
      · subst h'
        simp only [] at hp
        rcases mem_jsSet hp with h'' | h''
        · cases hb : jsGet s.cacheIndex f with
          | none => rw [hb] at h''; simp at h''
          | some b =>
              rw [hb] at h''
              simp only [Option.getD] at h''
              exact (cacheIndexSound_iff s).mp h (f, b) (jsGet_mem hb) p h''
        · rw [h'']
          exact hid

theorem sound_cacheSetNullItem (s : CacheState) (id : Nat)
    (f : Option String) (v : Option Nat) (h : cacheIndexSound s = true) :
    cacheIndexSound (cacheSetNullItem s id f v) = true := by
  unfold cacheSetNullItem
  split
  · exact h
  · have hsound1 : cacheIndexSound
        { s with cachedItems := jsSet s.cachedItems id none } = true := by
      rw [cacheIndexSound_iff]
      intro fi hfi p hp
      exact jsGet_jsSet_isSome _ _ _ _ ((cacheIndexSound_iff s).mp h fi hfi p hp)
    have hid1 : (jsGet (jsSet s.cachedItems id none) id).isSome = true := by
      rw [jsGet_jsSet_self]; rfl
    cases f with
    | none => exact hsound1
    | some f0 =>
        cases v with
        | none => exact hsound1
        | some v0 =>
            dsimp only
            split
            · exact sound_cacheSaveIndexByField _ f0 (some v0) id hsound1 hid1
            · exact hsound1

theorem sound_cacheMaintLoop : ∀ (ks : List Nat) (s : CacheState),
    cacheIndexSound s = true → cacheIndexSound (cacheMaintLoop s ks) = true := by
  intro ks
  induction ks with
  | nil => intro s h; exact h
  | cons k ks ih =>
      intro s h
      unfold cacheMaintLoop
      dsimp only
      split
      · exact sound_cacheDelete s k h
      · exact ih _ (sound_cacheDelete s k h)

theorem sound_cacheMaintenance (s : CacheState) (h : cacheIndexSound s = true) :
    cacheIndexSound (cacheMaintenance s) = true := by
  unfold cacheMaintenance
  split
  · exact h
  · exact sound_cacheMaintLoop _ s h

theorem sound_cacheSetIndexLoop (item : Item) :
    ∀ (fs : List String) (s : CacheState) (a : Option String),
    cacheIndexSound s = true →
    (jsGet s.cachedItems item.id).isSome = true →
    cacheIndexSound (cacheSetIndexLoop s item fs a).1 = true := by
  intro fs
  induction fs with
  | nil => intro s a h _; exact h
  | cons f fs ih =>
      intro s a h hid
      unfold cacheSetIndexLoop
      cases hv : jsGet item.fields f with
      | none => exact ih s _ h hid
      | some v =>
          dsimp only
          refine ih _ _ (sound_cacheSaveIndexByField s f (some v) item.id h hid) ?_
          rw [cacheSaveIndexByField_items]
          exact hid

theorem sound_cacheSet (s : CacheState) (item : Item) (a : Option String)
    (h : cacheIndexSound s = true) : cacheIndexSound (cacheSet s item a) = true := by
  unfold cacheSet
  split
  · exact h
  · have h1 : cacheIndexSound
        (if s.cachedItems.length > s.cacheMaxItems then cacheMaintenance s else s)
        = true := by
      split
      · exact sound_cacheMaintenance s h
      · exact h
    set s1 := if s.cachedItems.length > s.cacheMaxItems then cacheMaintenance s else s
    have h2 : cacheIndexSound
        { s1 with cacheLastLoadedItemID := some item.id
                  cacheLastLoadedItem := some item } = true := h1
    set s2 : CacheState :=
      { s1 with cacheLastLoadedItemID := some item.id
                cacheLastLoadedItem := some item }
    have h3 : cacheIndexSound
        (if (jsGet s2.cachedItems item.id).isSome then cacheDelete s2 item.id else s2)
        = true := by
      split
      · exact sound_cacheDelete s2 item.id h2
      · exact h2
    set s3 := if (jsGet s2.cachedItems item.id).isSome then cacheDelete s2 item.id else s2
    have h4 : cacheIndexSound
        { s3 with cachedItems := jsSet s3.cachedItems item.id (some item) } = true := by
      rw [cacheIndexSound_iff]
      intro fi hfi p hp
      exact jsGet_jsSet_isSome _ _ _ _ ((cacheIndexSound_iff s3).mp h3 fi hfi p hp)
    set s4 : CacheState :=
      { s3 with cachedItems := jsSet s3.cachedItems item.id (some item) }
    have hid4 : (jsGet s4.cachedItems item.id).isSome = true := by
      show (jsGet (jsSet s3.cachedItems item.id (some item)) item.id).isSome = true
      rw [jsGet_jsSet_self]; rfl
    have h5 : cacheIndexSound (cacheSetIndexLoop s4 item
        (s4.cacheIndex.map Prod.fst) a).1 = true :=
      sound_cacheSetIndexLoop item _ s4 a h4 hid4
    have hitems5 : (cacheSetIndexLoop s4 item
        (s4.cacheIndex.map Prod.fst) a).1.cachedItems = s4.cachedItems :=
      cacheSetIndexLoop_items item _ s4 a
    cases hr : (cacheSetIndexLoop s4 item (s4.cacheIndex.map Prod.fst) a).2 with
    | none =>
        simp only [hr]
        exact h5
    | some f =>
        simp only [hr]
        split
        · refine sound_cacheSaveIndexByField _ f _ item.id h5 ?_
          rw [hitems5]
          exact hid4
        · exact h5

/-- C9: every cache operation — `cacheEnable`, `cacheSet`,
`cacheSetNullItem`, `cacheDelete`, and the eviction pass
`cacheMaintenance` — preserves the invariant that every id stored in any
secondary index bucket is a key of the primary item map. -/
theorem claimC9_theorem :
    ∀ (s : CacheState) (indexBy : List String) (idProp : String) (m : Nat)
      (item : Item) (a : Option String) (id : Nat) (f : Option String)
      (v : Option Nat),
    cacheIndexSound s = true →
    cacheIndexSound (cacheEnable s indexBy idProp m) = true
    ∧ cacheIndexSound (cacheSet s item a) = true
    ∧ cacheIndexSound (cacheSetNullItem s id f v) = true
    ∧ cacheIndexSound (cacheDelete s id) = true
    ∧ cacheIndexSound (cacheMaintenance s) = true := by
  intro s indexBy idProp m item a id f v h
  exact ⟨sound_cacheEnable s indexBy idProp m h,
         sound_cacheSet s item a h,
         sound_cacheSetNullItem s id f v h,
         sound_cacheDelete s id h,
         sound_cacheMaintenance s h⟩

/-- Witness for `claimC9_theorem` on a concrete sound state with one
indexed field and one cached item. -/
theorem claimC9_witness :
    cacheIndexSound
      { cache := true, cacheIDField := "id",
        cacheIndex := [("did", [(8, 1)])],
        cachedItems := [(1, some ⟨1, [("did", 8)]⟩)],
        cacheMaxItems := 100,
        cacheLastLoadedItem := none, cacheLastLoadedItemID := none } = true
    ∧ cacheIndexSound (cacheSet
      { cache := true, cacheIDField := "id",
        cacheIndex := [("did", [(8, 1)])],
        cachedItems := [(1, some ⟨1, [("did", 8)]⟩)],
        cacheMaxItems := 100,
        cacheLastLoadedItem := none, cacheLastLoadedItemID := none }
      ⟨2, [("did", 9)]⟩ none) = true :=
  ⟨by decide,
   (claimC9_theorem
      { cache := true, cacheIDField := "id",
        cacheIndex := [("did", [(8, 1)])],
        cachedItems := [(1, some ⟨1, [("did", 8)]⟩)],
        cacheMaxItems := 100,
        cacheLastLoadedItem := none, cacheLastLoadedItemID := none }
      [] "id" 100 ⟨2, [("did", 9)]⟩ none 1 none none (by decide)).2.1⟩

/-! ### Operation traces over the cache (claim C8) -/

/-- One public mutating call on a `CacheBaseService`. -/
inductive CacheOp where
  | enable (indexBy : List String) (idProp : String) (maxItems : Nat)
  | set (item : Item) (addToIndexBy : Option String)
  | setNull (id : Nat) (fieldName : Option String) (value : Option Nat)
  | del (id : Nat)
deriving DecidableEq, Repr

def applyCacheOp (s : CacheState) : CacheOp → CacheState
  | .enable indexBy idProp m => cacheEnable s indexBy idProp m
  | .set item a => cacheSet s item a
  | .setNull id f v => cacheSetNullItem s id f v
  | .del id => cacheDelete s id

def applyCacheOps (s : CacheState) (ops : List CacheOp) : CacheState :=
  ops.foldl applyCacheOp s

/-- Does the operation store an entry under `id` (via `cacheSet` of an
item with that id, or `cacheSetNullItem` of that id)? -/
def opTouches (id : Nat) : CacheOp → Bool
  | .set item _ => item.id = id
  | .setNull i _ _ => i = id
  | _ => false

/-- "id is unknown to the cache": no primary entry and the last-loaded
shortcut does not point at it. -/
def idUntouched (s : CacheState) (id : Nat) : Prop :=
  jsGet s.cachedItems id = none ∧ s.cacheLastLoadedItemID ≠ some id

theorem idUntouched_cacheDelete {id : Nat} (s : CacheState) (k : Nat)
    (h : idUntouched s id) : idUntouched (cacheDelete s k) id := by
  obtain ⟨h1, h2⟩ := h
  unfold cacheDelete
  split
  · exact ⟨h1, h2⟩
  · constructor
    · exact jsGet_jsDelete_none _ _ _ h1
    · dsimp only
      split
      · simp
      · exact h2

theorem idUntouched_initCache (id : Nat) : idUntouched initCache id := by
  constructor <;> simp [initCache, jsGet]

theorem idUntouched_applyCacheOp (s : CacheState) (op : CacheOp) (id : Nat)
    (hop : opTouches id op = false) (h : idUntouched s id) :
    idUntouched (applyCacheOp s op) id := by
  obtain ⟨h1, h2⟩ := h
  cases op with
  | enable indexBy idProp m => exact ⟨h1, h2⟩
  | del k => exact idUntouched_cacheDelete s k ⟨h1, h2⟩
  | setNull i f v =>
      have hne : i ≠ id := by simpa [opTouches] using hop
      show idUntouched (cacheSetNullItem s i f v) id
      unfold cacheSetNullItem
      split
      · exact ⟨h1, h2⟩
      · have hbase : idUntouched
            { s with cachedItems := jsSet s.cachedItems i none } id := by
          constructor
          · rw [jsGet_jsSet_other _ _ _ _ (fun hh => hne hh.symm)]
            exact h1
          · exact h2
        cases f with
        | none => exact hbase
        | some f0 =>
            cases v with
            | none => exact hbase
            | some v0 =>
                dsimp only
                split
                · obtain ⟨hb1, hb2⟩ := hbase
                  constructor
                  · rw [cacheSaveIndexByField_items]; exact hb1
                  · rw [cacheSaveIndexByField_last]; exact hb2
                · exact hbase
  | set item a =>
      have hne : item.id ≠ id := by simpa [opTouches] using hop
      show idUntouched (cacheSet s item a) id
      unfold cacheSet
      split
      · exact ⟨h1, h2⟩
      · have hu1 : idUntouched
            (if s.cachedItems.length > s.cacheMaxItems then cacheMaintenance s else s)
            id := by
          split
          · unfold cacheMaintenance
            split
            · exact ⟨h1, h2⟩
            · have : ∀ (ks : List Nat) (t : CacheState), idUntouched t id →
                  idUntouched (cacheMaintLoop t ks) id := by
                intro ks
                induction ks with
                | nil => intro t ht; exact ht
                | cons k ks ih =>
                    intro t ht
                    unfold cacheMaintLoop
                    dsimp only
                    split
                    · exact idUntouched_cacheDelete t k ht
                    · exact ih _ (idUntouched_cacheDelete t k ht)
              exact this _ s ⟨h1, h2⟩
          · exact ⟨h1, h2⟩
        set s1 := if s.cachedItems.length > s.cacheMaxItems then cacheMaintenance s else s
        have hu2 : idUntouched
            { s1 with cacheLastLoadedItemID := some item.id
                      cacheLastLoadedItem := some item } id := by
          obtain ⟨hb1, hb2⟩ := hu1
          exact ⟨hb1, by simp [hne]⟩
        set s2 : CacheState :=
          { s1 with cacheLastLoadedItemID := some item.id
                    cacheLastLoadedItem := some item }
        have hu3 : idUntouched
            (if (jsGet s2.cachedItems item.id).isSome then cacheDelete s2 item.id else s2)
            id := by
          split
          · exact idUntouched_cacheDelete s2 item.id hu2
          · exact hu2
        set s3 := if (jsGet s2.cachedItems item.id).isSome then cacheDelete s2 item.id else s2
        have hu4 : idUntouched
            { s3 with cachedItems := jsSet s3.cachedItems item.id (some item) } id := by
          obtain ⟨hb1, hb2⟩ := hu3
          constructor
          · rw [jsGet_jsSet_other _ _ _ _ (fun hh => hne hh.symm)]
            exact hb1
          · exact hb2
        set s4 : CacheState :=
          { s3 with cachedItems := jsSet s3.cachedItems item.id (some item) }
        have hu5 : idUntouched (cacheSetIndexLoop s4 item
            (s4.cacheIndex.map Prod.fst) a).1 id := by
          obtain ⟨hb1, hb2⟩ := hu4
          constructor
          · rw [cacheSetIndexLoop_items]; exact hb1
          · rw [cacheSetIndexLoop_last]; exact hb2
        cases hr : (cacheSetIndexLoop s4 item (s4.cacheIndex.map Prod.fst) a).2 with
        | none =>
            simp only [hr]
            exact hu5
        | some f =>
            simp only [hr]
            split
            · obtain ⟨hb1, hb2⟩ := hu5
              constructor
              · rw [cacheSaveIndexByField_items]; exact hb1
              · rw [cacheSaveIndexByField_last]; exact hb2
            · exact hu5

theorem idUntouched_applyCacheOps (id : Nat) :
    ∀ (ops : List CacheOp) (s : CacheState),
    (∀ op ∈ ops, opTouches id op = false) → idUntouched s id →
    idUntouched (applyCacheOps s ops) id := by
  intro ops
  induction ops with
  | nil => intro s _ h; exact h
  | cons op ops ih =>
      intro s hops h
      exact ih _ (fun o ho => hops o (List.mem_cons_of_mem _ ho))
        (idUntouched_applyCacheOp s op id (hops op (List.mem_cons_self _ _)) h)

theorem cacheGet_of_idUntouched (s : CacheState) (id : Nat)
    (h : idUntouched s id) : cacheGet s id = none := by
  obtain ⟨h1, h2⟩ := h
  cases hc : s.cache with
  | false => simp [cacheGet, hc]
  | true => simp [cacheGet, hc, h2, h1]

/-- The intermediate state of the C8 counterexample: cache enabled, a
real item with id 5 stored (making it the last-loaded shortcut), then
`cacheSetNullItem 5` — so id 5 is no longer stored as a real item. -/
def cacheShortcutState : CacheState :=
  applyCacheOps initCache
    [.enable [] "id" 100, .set ⟨5, []⟩ none, .setNull 5 none none]

/-- C8 (counterexample): in `cacheShortcutState` id 5 is not stored as a
real item (its primary entry is an explicit null), yet after another
`cacheSetNullItem 5` the call `cacheGet 5` returns the stale real item
through the last-loaded shortcut — neither `null` nor `undefined` —
because `cacheSetNullItem` never clears that shortcut. -/
theorem claimC8_counterexample :
    jsGet cacheShortcutState.cachedItems 5 = some none
    ∧ cacheGet (cacheSetNullItem cacheShortcutState 5 none none) 5 =
        some (some ⟨5, []⟩)
    ∧ some (some (⟨5, []⟩ : Item)) ≠ some (none : Option Item) := by
  decide

/-- C8 (amended): `cacheSetNullItem id` makes `cacheGet id` return the
explicit `null` provided the last-loaded shortcut does not point at
`id`; and an id never stored by `cacheSet` or `cacheSetNullItem` over
any operation trace from the initial state yields `undefined`. -/
theorem claimC8_theorem :
    (∀ (s : CacheState) (id : Nat) (f : Option String) (v : Option Nat),
      s.cache = true → s.cacheLastLoadedItemID ≠ some id →
      cacheGet (cacheSetNullItem s id f v) id = some none)
    ∧ (∀ (ops : List CacheOp) (id : Nat),
      (∀ op ∈ ops, opTouches id op = false) →
      cacheGet (applyCacheOps initCache ops) id = none) := by
  constructor
  · intro s id f v hc hlast
    have hbase : ∀ (t : CacheState), t.cache = true →
        t.cacheLastLoadedItemID ≠ some id →
        jsGet t.cachedItems id = some none → cacheGet t id = some none := by
      intro t htc htl hti
      unfold cacheGet
      rw [htc]
      simp only [Bool.not_true]
      rw [if_neg (by simp), if_neg htl]
      exact hti
    unfold cacheSetNullItem
    rw [hc]
    simp only [Bool.not_true]
    rw [if_neg (by simp)]
    have hitems1 : jsGet (jsSet s.cachedItems id none) id = some none :=
      jsGet_jsSet_self _ _ _
    cases f with
    | none => exact hbase _ rfl hlast hitems1
    | some f0 =>
        cases v with
        | none => exact hbase _ rfl hlast hitems1
        | some v0 =>
            dsimp only
            split
            · refine hbase _ ?_ ?_ ?_
              · rw [cacheSaveIndexByField_cache]
              · rw [cacheSaveIndexByField_last]; exact hlast
              · rw [cacheSaveIndexByField_items]; exact hitems1
            · exact hbase _ rfl hlast hitems1
  · intro ops id hops
    exact cacheGet_of_idUntouched _ id
      (idUntouched_applyCacheOps id ops initCache hops (idUntouched_initCache id))

/-- Witness for `claimC8_theorem`: the spec's own `setNull(5)` scenario
and an untouched id 9. -/
theorem claimC8_witness :
    ((applyCacheOps initCache [.enable [] "id" 100]).cache = true
     ∧ (applyCacheOps initCache
         [.enable [] "id" 100]).cacheLastLoadedItemID ≠ some 5
     ∧ cacheGet (cacheSetNullItem
         (applyCacheOps initCache [.enable [] "id" 100]) 5 none none) 5 =
         some none)
    ∧ ((∀ op ∈ ([.enable [] "id" 100, .set ⟨5, []⟩ none] : List CacheOp),
          opTouches 9 op = false)
       ∧ cacheGet (applyCacheOps initCache
           [.enable [] "id" 100, .set ⟨5, []⟩ none]) 9 = none) :=
  ⟨⟨by decide, by decide,
    claimC8_theorem.1 (applyCacheOps initCache [.enable [] "id" 100]) 5 none none
      (by decide) (by decide)⟩,
   ⟨by decide,
    claimC8_theorem.2 [.enable [] "id" 100, .set ⟨5, []⟩ none] 9 (by decide)⟩⟩

/-! ## Cache-only query resolution — `cacheQuery` (service-base.ts)

A field filter entry of a canonical query, restricted to the operators
`cacheQuery` inspects.  `eq = some v` models `{_eq: v}` with a
number/string value (the only values passing the `typeof` guard);
`inn = some ids` models `{_in: ids}`.  Any further operators
(`_gt`, …) are invisible to `cacheQuery` and correspond to both fields
being `none`. -/

structure FieldOp where
  eq : Option Nat
  inn : Option (List Nat)
deriving DecidableEq, Repr

/-- The `_in` loop of `cacheQuery`: collect cached items in order, abort
with `undefined` on the first id that is not a real cache hit. -/
def cacheQueryIn (s : CacheState) : List Nat → Option (List Item)
  | [] => some []
  | id :: rest =>
      match cacheGet s id with
      | some (some it) =>
          match cacheQueryIn s rest with
          | some l => some (it :: l)
          | none => none
      | _ => none

/-- The trailing `for(const field in query.filter)` loop of `cacheQuery`:
the first filter key with an existing index bucket and a number/string
`_eq` decides the result; non-eligible keys are skipped. -/
def cacheQueryIndexScan (s : CacheState) : List (String × FieldOp) → Option (List Item)
  | [] => none
  | (f, op) :: rest =>
      if (jsGet s.cacheIndex f).isSome then
        match op.eq with
        | none => cacheQueryIndexScan s rest
        | some v =>
            match cacheGetByField s f v with
            | some (some it) => some [it]
            | _ => none
      else cacheQueryIndexScan s rest

/-- `cacheQuery(query)` of `DB_EntityService_Base`, over the query's
filter (`none` = no filter present).  Mirrors the source: a truthy
id-field `_eq` short-circuits through `cacheGet`; otherwise an id-field
`_in` array is resolved all-or-nothing; otherwise the indexed-field scan
runs over the whole filter. -/
def cacheQuery (s : CacheState) (idFieldName : String)
    (filter : Option (List (String × FieldOp))) : Option (List Item) :=
  match filter with
  | none => none
  | some fl =>
      match jsGet fl idFieldName with
      | some idOp =>
          if jsTruthyNum idOp.eq then
            match idOp.eq with
            | some v =>
                match cacheGet s v with
                | some (some it) => some [it]
                | _ => none
            | none => none
          else
            match idOp.inn with
            | some ids => cacheQueryIn s ids
            | none => cacheQueryIndexScan s fl
      | none => cacheQueryIndexScan s fl

/-- C3 (counterexample): `cacheQuery` does not require the filter to be
a *single* equality filter — with `did` indexed and hit in cache, a
filter carrying a second condition (`status`) is still resolved from the
index alone, returning `[item]` where the claim requires `undefined`. -/
theorem claimC3_counterexample :
    cacheQuery
      { cache := true, cacheIDField := "id",
        cacheIndex := [("did", [(8, 1)])],
        cachedItems := [(1, some ⟨1, [("did", 8)]⟩)],
        cacheMaxItems := 100, cacheLastLoadedItem := none,
        cacheLastLoadedItemID := none }
      "id"
      (some [("did", ⟨some 8, none⟩), ("status", ⟨some 5, none⟩)]) =
      some [⟨1, [("did", 8)]⟩]
    ∧ some [(⟨1, [("did", 8)]⟩ : Item)] ≠ (none : Option (List Item)) := by
  decide

/-- C3 (amended): full characterisation of `cacheQuery`.  A truthy
id-field `_eq` that is a real cache hit yields the one-element array and
a non-hit (miss or cached null) yields `undefined`; with `_eq` not
truthy, an id-field `_in` list is resolved all-or-nothing (any non-hit
id aborts to `undefined`, all hits yield one item per id in order);
otherwise the scan over the filter keys applies: the first key with an
existing index bucket and a number/string `_eq` decides the result from
the index — regardless of any other conditions in the filter — and if no
such key exists the result is `undefined`. -/
theorem claimC3_theorem :
    ∀ (s : CacheState) (idF : String) (fl : List (String × FieldOp)),
    cacheQuery s idF none = none
    ∧ (∀ (op : FieldOp) (v : Nat) (it : Item),
        jsGet fl idF = some op → op.eq = some v → v ≠ 0 →
        cacheGet s v = some (some it) →
        cacheQuery s idF (some fl) = some [it])
    ∧ (∀ (op : FieldOp) (v : Nat),
        jsGet fl idF = some op → op.eq = some v → v ≠ 0 →
        (∀ it : Item, cacheGet s v ≠ some (some it)) →
        cacheQuery s idF (some fl) = none)
    ∧ (∀ (op : FieldOp) (ids : List Nat),
        jsGet fl idF = some op → jsTruthyNum op.eq = false →
        op.inn = some ids →
        cacheQuery s idF (some fl) = cacheQueryIn s ids)
    ∧ (∀ (ids : List Nat) (id : Nat), id ∈ ids →
        (∀ it : Item, cacheGet s id ≠ some (some it)) →
        cacheQueryIn s ids = none)
    ∧ (∀ (ids : List Nat),
        (∀ id ∈ ids, ∃ it : Item, cacheGet s id = some (some it)) →
        ∃ l, cacheQueryIn s ids = some l ∧ l.length = ids.length)
    ∧ (∀ (op : FieldOp),
        jsGet fl idF = some op → jsTruthyNum op.eq = false → op.inn = none →
        cacheQuery s idF (some fl) = cacheQueryIndexScan s fl)
    ∧ (jsGet fl idF = none →
        cacheQuery s idF (some fl) = cacheQueryIndexScan s fl)
    ∧ (∀ (f : String) (op : FieldOp) (rest : List (String × FieldOp))
        (v : Nat) (it : Item),
        (jsGet s.cacheIndex f).isSome = true → op.eq = some v →
        cacheGetByField s f v = some (some it) →
        cacheQueryIndexScan s ((f, op) :: rest) = some [it])
    ∧ (∀ (f : String) (op : FieldOp) (rest : List (String × FieldOp)) (v : Nat),
        (jsGet s.cacheIndex f).isSome = true → op.eq = some v →
        (∀ it : Item, cacheGetByField s f v ≠ some (some it)) →
        cacheQueryIndexScan s ((f, op) :: rest) = none)
    ∧ (∀ (f : String) (op : FieldOp) (rest : List (String × FieldOp)),
        ((jsGet s.cacheIndex f).isSome = false ∨ op.eq = none) →
        cacheQueryIndexScan s ((f, op) :: rest) = cacheQueryIndexScan s rest)
    ∧ cacheQueryIndexScan s [] = none := by
  intro s idF fl
  refine ⟨rfl, ?_, ?_, ?_, ?_, ?_, ?_, ?_, ?_, ?_, ?_, rfl⟩
  · intro op v it h1 h2 h3 h4
    simp [cacheQuery, h1, h2, jsTruthyNum, h3, h4]
  · intro op v h1 h2 h3 h4
    have hq : cacheQuery s idF (some fl) =
        (match cacheGet s v with
         | some (some it) => some [it]
         | _ => none) := by
      simp [cacheQuery, h1, h2, jsTruthyNum, h3]
    rw [hq]
    rcases hg : cacheGet s v with _ | oit
    · rfl
    · cases oit with
      | none => rfl
      | some it => exact absurd hg (h4 it)
  · intro op ids h1 h2 h3
    simp [cacheQuery, h1, h2, h3]
  · intro ids
    induction ids with
    | nil => intro id h; simp at h
    | cons a rest ih =>
        intro id hmem hno
        rcases List.mem_cons.mp hmem with heq | hmem'
        · subst heq
          rcases hg : cacheGet s id with _ | oit
          · simp [cacheQueryIn, hg]
          · cases oit with
            | none => simp [cacheQueryIn, hg]
            | some it => exact absurd hg (hno it)
        · unfold cacheQueryIn
          rcases hg : cacheGet s a with _ | oit
          · rfl
          · cases oit with
            | none => rfl
            | some it => simp [ih id hmem' hno]
  · intro ids
    induction ids with
    | nil => intro _; exact ⟨[], rfl, rfl⟩
    | cons a rest ih =>
        intro hall
        obtain ⟨it, hit⟩ := hall a (List.mem_cons_self _ _)
        obtain ⟨l, hl, hlen⟩ := ih (fun id hid => hall id (List.mem_cons_of_mem _ hid))
        exact ⟨it :: l, by simp [cacheQueryIn, hit, hl], by simp [hlen]⟩
  · intro op h1 h2 h3
    simp [cacheQuery, h1, h2, h3]
  · intro h1
    simp [cacheQuery, h1]
  · intro f op rest v it h1 h2 h3
    simp [cacheQueryIndexScan, h1, h2, h3]
  · intro f op rest v h1 h2 h3
    have hq : cacheQueryIndexScan s ((f, op) :: rest) =
        (match cacheGetByField s f v with
         | some (some it) => some [it]
         | _ => none) := by
      simp [cacheQueryIndexScan, h1, h2]
    rw [hq]
    rcases hg : cacheGetByField s f v with _ | oit
    · rfl
    · cases oit with
      | none => rfl
      | some it => exact absurd hg (h3 it)
  · intro f op rest h1
    rcases h1 with h1 | h1
    · simp [cacheQueryIndexScan, h1]
    · simp [cacheQueryIndexScan, h1]

/-- Witness for `claimC3_theorem`: the spec's scenario — id 7 cached,
`query({filter:{id:{_eq:7}}})` resolves to `[cachedItem]` from cache. -/
theorem claimC3_witness :
    jsGet [("id", (⟨some 7, none⟩ : FieldOp))] "id" = some ⟨some 7, none⟩
    ∧ (7 : Nat) ≠ 0
    ∧ cacheGet
        { cache := true, cacheIDField := "id", cacheIndex := [],
          cachedItems := [(7, some ⟨7, []⟩)], cacheMaxItems := 100,
          cacheLastLoadedItem := none, cacheLastLoadedItemID := none }
        7 = some (some ⟨7, []⟩)
    ∧ cacheQuery
        { cache := true, cacheIDField := "id", cacheIndex := [],
          cachedItems := [(7, some ⟨7, []⟩)], cacheMaxItems := 100,
          cacheLastLoadedItem := none, cacheLastLoadedItemID := none }
        "id" (some [("id", ⟨some 7, none⟩)]) = some [⟨7, []⟩] :=
  ⟨by decide, by decide, by decide,
   (claimC3_theorem
      { cache := true, cacheIDField := "id", cacheIndex := [],
        cachedItems := [(7, some ⟨7, []⟩)], cacheMaxItems := 100,
        cacheLastLoadedItem := none, cacheLastLoadedItemID := none }
      "id" [("id", ⟨some 7, none⟩)]).2.1
     ⟨some 7, none⟩ 7 ⟨7, []⟩ (by decide) rfl (by decide) (by decide)⟩

/-! ## Server broker — `DB_BrokerService` (broker.service.ts)

`DB_ServerInfo` is modelled over its scalar fields (url, type, login,
password, token, isLoggedIn) — the fields on which the source's
`getChanges` shallow `!==` comparison is value comparison — plus the
entity list and two booleans standing for the presence of
`loginFunction` / `someService`.  `IsLoginStatus` is its numeric value.
A `Partial<DB_ServerInfo>` update distinguishes an absent key (`none`)
from a key explicitly set to `undefined` (`some none`). -/

def loginStatusYes : Int := 10
def loginStatusNdef : Int := 0
def loginStatusNot : Int := -10
def loginStatusWaiting : Int := -5
def loginStatusError : Int := -100

structure SrvInfo where
  name : String
  url : Option String
  type : Option String
  login : Option String
  password : Option String
  token : Option String
  isLoggedIn : Int
  entities : List String
  hasLoginFunction : Bool
  hasSomeService : Bool
deriving DecidableEq, Repr

structure SrvChanges where
  url : Option (Option String)
  type : Option (Option String)
  login : Option (Option String)
  password : Option (Option String)
  token : Option (Option String)
  isLoggedIn : Option Int
deriving DecidableEq, Repr

def noChanges : SrvChanges :=
  { url := none, type := none, login := none, password := none,
    token := none, isLoggedIn := none }

structure BrokerState where
  servers : List (String × SrvInfo)
  serverUpdatesSubscribers : List (String × List Nat)
deriving DecidableEq, Repr

/-- One field of `getChanges`: keep the incoming value when the key is
present and the value differs (`!==`) from the stored one. -/
def diffField {α : Type} [DecidableEq α] (oldVal : α) (newVal : Option α) :
    Option α :=
  match newVal with
  | some w => if w ≠ oldVal then some w else none
  | none => none

/-- `getChanges(oldSrv, newSrv)` for an existing server: the fields of
the update whose value differs from the stored server. -/
def getChanges (old : SrvInfo) (c : SrvChanges) : SrvChanges :=
  { url := diffField old.url c.url
    type := diffField old.type c.type
    login := diffField old.login c.login
    password := diffField old.password c.password
    token := diffField old.token c.token
    isLoggedIn := diffField old.isLoggedIn c.isLoggedIn }

/-- `Object.keys(changes).length > 0`. -/
def changesNonempty (c : SrvChanges) : Bool :=
  c.url.isSome || c.type.isSome || c.login.isSome || c.password.isSome ||
  c.token.isSome || c.isLoggedIn.isSome

/-- `Object.assign(srvRef, realChanges)`. -/
def applyChanges (srv : SrvInfo) (c : SrvChanges) : SrvInfo :=
  { srv with
    url := c.url.getD srv.url
    type := c.type.getD srv.type
    login := c.login.getD srv.login
    password := c.password.getD srv.password
    token := c.token.getD srv.token
    isLoggedIn := c.isLoggedIn.getD srv.isLoggedIn }

/-- JS truthiness of a present-or-absent string value. -/
def jsTruthyStrOpt : Option (Option String) → Bool
  | some (some s) => s ≠ ""
  | _ => false

/-- The fresh `DB_ServerInfo` created by `upsertServer` for an unknown
name: `url` defaults to `https://<name>`, state `NotLoggedIn`. -/
def createSrv (serverName : String) (c : SrvChanges) : SrvInfo :=
  { name := serverName
    url := match c.url with
           | some (some u) => some u
           | _ => some ("https://" ++ serverName)
    type := c.type.getD none
    login := none
    password := none
    token := none
    isLoggedIn := loginStatusNot
    entities := []
    hasLoginFunction := false
    hasSomeService := false }

def getSubs (st : BrokerState) (n : String) : List Nat :=
  (jsGet st.serverUpdatesSubscribers n).getD []

/-- `upsertServer(serverName, changes, doLogin, notifySubscribers)`:
returns the new broker state, the notifications dispatched — one
`(subscriber, realChanges)` event per subscriber of the server's name
followed by every `-any-` wildcard subscriber — and whether the
fire-and-forget auto-login was triggered. -/
def upsertServer (st : BrokerState) (serverName : String) (c : SrvChanges)
    (doLogin : Bool) (notifySubscribers : Bool) :
    BrokerState × List (Nat × SrvChanges) × Bool :=
  let oldSrv := jsGet st.servers serverName
  let srv0 := match oldSrv with
              | some s => s
              | none => createSrv serverName c
  let srv1 := if jsTruthyStrOpt c.type ∧ ¬ srv0.hasLoginFunction then
                (if c.type = some (some "directus")
                 then { srv0 with hasLoginFunction := true } else srv0)
              else srv0
  let realChanges := match oldSrv with
                     | none => c
                     | some old => getChanges old c
  let srv2 := applyChanges srv1 realChanges
  let st2 := { st with servers := jsSet st.servers serverName srv2 }
  let notifs := if notifySubscribers ∧ changesNonempty realChanges then
                  (getSubs st serverName ++ getSubs st "-any-").map
                    (fun sub => (sub, realChanges))
                else []
  let loginTriggered := doLogin ∧ srv2.isLoggedIn ≤ 0
    ∧ (srv2.hasLoginFunction ∨ srv2.hasSomeService)
    ∧ (jsTruthyStrOpt realChanges.login ∨ jsTruthyStrOpt realChanges.password
       ∨ jsTruthyStrOpt realChanges.token)
  (st2, notifs, loginTriggered)

theorem diffField_eq_some {α : Type} [DecidableEq α]
    (oldVal : α) (newVal : Option α) (v : α) :
    diffField oldVal newVal = some v ↔ (newVal = some v ∧ v ≠ oldVal) := by
  cases newVal with
  | none => simp [diffField]
  | some w =>
      by_cases hw : w = oldVal
      · subst hw
        constructor
        · intro h
          exact absurd h (by simp [diffField])
        · rintro ⟨hv, hne⟩
          injection hv with hv'
          exact absurd hv'.symm hne
      · have hd : diffField oldVal (some w) = some w := by simp [diffField, hw]
        rw [hd]
        constructor
        · intro h
          injection h with h'
          subst h'
          exact ⟨rfl, hw⟩
        · rintro ⟨hv, _⟩
          exact hv

/-- C6: for an existing server, `upsertServer` with notification enabled
dispatches to the name's subscribers followed by every `-any-` wildcard
subscriber a payload that is exactly the shallow diff (`getChanges`):
a field appears in the payload iff it is present in the update with a
value differing from the stored one; when nothing differs no
notification is dispatched; and upserting an unknown name creates the
server with login state `NotLoggedIn`. -/
theorem claimC6_theorem :
    ∀ (st : BrokerState) (serverName : String) (c : SrvChanges),
    (∀ old, jsGet st.servers serverName = some old →
      (upsertServer st serverName c false true).2.1 =
        (if changesNonempty (getChanges old c) then
          (getSubs st serverName ++ getSubs st "-any-").map
            (fun sub => (sub, getChanges old c))
         else [])
      ∧ (changesNonempty (getChanges old c) = false →
          (upsertServer st serverName c false true).2.1 = [])
      ∧ (∀ v, (getChanges old c).url = some v ↔ (c.url = some v ∧ v ≠ old.url))
      ∧ (∀ v, (getChanges old c).type = some v ↔ (c.type = some v ∧ v ≠ old.type))
      ∧ (∀ v, (getChanges old c).login = some v ↔ (c.login = some v ∧ v ≠ old.login))
      ∧ (∀ v, (getChanges old c).password = some v ↔
                (c.password = some v ∧ v ≠ old.password))
      ∧ (∀ v, (getChanges old c).token = some v ↔ (c.token = some v ∧ v ≠ old.token))
      ∧ (∀ v, (getChanges old c).isLoggedIn = some v ↔
                (c.isLoggedIn = some v ∧ v ≠ old.isLoggedIn)))
    ∧ (jsGet st.servers serverName = none → c.isLoggedIn = none →
       (jsGet (upsertServer st serverName c false true).1.servers serverName).map
          (fun srv => srv.isLoggedIn) = some loginStatusNot) := by
  intro st serverName c
  constructor
  · intro old hold
    refine ⟨?_, ?_, ?_, ?_, ?_, ?_, ?_, ?_⟩
    · simp [upsertServer, hold]
    · intro hzero
      simp [upsertServer, hold, hzero]
    · exact fun v => diffField_eq_some old.url c.url v
    · exact fun v => diffField_eq_some old.type c.type v
    · exact fun v => diffField_eq_some old.login c.login v
    · exact fun v => diffField_eq_some old.password c.password v
    · exact fun v => diffField_eq_some old.token c.token v
    · exact fun v => diffField_eq_some old.isLoggedIn c.isLoggedIn v
  · intro hnone hlog
    simp [upsertServer, hnone, jsGet_jsSet_self, applyChanges, hlog,
      apply_ite (fun srv : SrvInfo => srv.isLoggedIn), createSrv]

/-- Concrete broker fixtures for the C6 witness. -/
def srvW : SrvInfo :=
  { name := "stats", url := some "https://stats", type := some "directus",
    login := some "a", password := some "p", token := none,
    isLoggedIn := loginStatusNot, entities := ["test"],
    hasLoginFunction := true, hasSomeService := false }

def stW : BrokerState :=
  { servers := [("stats", srvW)],
    serverUpdatesSubscribers := [("stats", [1]), ("-any-", [2])] }

def cW : SrvChanges :=
  { url := none, type := none, login := none, password := none,
    token := some (some "tok"), isLoggedIn := some loginStatusYes }

/-- Witness for `claimC6_theorem`: one named subscriber and one wildcard
subscriber both receive the two-field diff payload; creating an unknown
server name yields `NotLoggedIn`. -/
theorem claimC6_witness :
    jsGet stW.servers "stats" = some srvW
    ∧ jsGet ({ servers := [], serverUpdatesSubscribers := [] } :
        BrokerState).servers "core" = none
    ∧ noChanges.isLoggedIn = none
    ∧ (upsertServer stW "stats" cW false true).2.1 =
        [(1, getChanges srvW cW), (2, getChanges srvW cW)]
    ∧ (jsGet (upsertServer
        { servers := [], serverUpdatesSubscribers := [] } "core" noChanges
        false true).1.servers "core").map (fun srv => srv.isLoggedIn) =
        some loginStatusNot :=
  ⟨by decide, by decide, rfl,
   by rw [((claimC6_theorem stW "stats" cW).1 srvW (by decide)).1]; decide,
   (claimC6_theorem { servers := [], serverUpdatesSubscribers := [] }
      "core" noChanges).2 (by decide) rfl⟩

/-! ## `waitForLogin` (broker.service.ts, claim C7)

The server's `isLoggedIn` field may be changed concurrently by an
in-flight login between the suspension points of the polling loop; it is
modelled as a stream `f : Nat → Int` giving the status observed after
`k` sleeps.  The effects performed by the function are recorded: the
loop only ever sleeps, it never invokes a login entry point. -/

inductive BrokerEffect where
  | sleep
  | loginCall
deriving DecidableEq, Repr

/-- The `while(srv.isLoggedIn === waiting && tries-- > 0)` loop: returns
how many sleeps were performed, starting from `k` performed sleeps with
`tries` budget left. -/
def waitLoopPolls (f : Nat → Int) : Nat → Nat → Nat
  | k, 0 => k
  | k, Nat.succ t => if f k = loginStatusWaiting then waitLoopPolls f (k + 1) t else k

/-- `waitForLogin(serverName, tries)`: `none` models an unknown server
name (the `error` status is returned at once); otherwise the status
stream of the found server is polled.  Result: the returned status and
the list of effects performed. -/
def waitForLogin (srv : Option (Nat → Int)) (tries : Nat) :
    Int × List BrokerEffect :=
  match srv with
  | none => (loginStatusError, [])
  | some f =>
      if f 0 > 0 then (f 0, [])
      else
        let k := waitLoopPolls f 0 tries
        (f k, List.replicate k BrokerEffect.sleep)

theorem waitLoopPolls_ge (f : Nat → Int) :
    ∀ (t k : Nat), k ≤ waitLoopPolls f k t := by
  intro t
  induction t with
  | zero => intro k; exact le_refl _
  | succ t ih =>
      intro k
      unfold waitLoopPolls
      split
      · exact le_trans (Nat.le_succ k) (ih (k + 1))
      · exact le_refl _

theorem waitLoopPolls_le (f : Nat → Int) :
    ∀ (t k : Nat), waitLoopPolls f k t ≤ k + t := by
  intro t
  induction t with
  | zero => intro k; exact le_refl _
  | succ t ih =>
      intro k
      unfold waitLoopPolls
      split
      · exact le_trans (ih (k + 1)) (by omega)
      · omega

theorem waitLoopPolls_waiting (f : Nat → Int) :
    ∀ (t k j : Nat), k ≤ j → j < waitLoopPolls f k t →
    f j = loginStatusWaiting := by
  intro t
  induction t with
  | zero =>
      intro k j hkj hlt
      exact absurd hlt (by simp [waitLoopPolls]; omega)
  | succ t ih =>
      intro k j hkj hlt
      rw [waitLoopPolls] at hlt
      by_cases hw : f k = loginStatusWaiting
      · rw [if_pos hw] at hlt
        rcases Nat.eq_or_lt_of_le hkj with heq | hlt'
        · subst heq; exact hw
        · exact ih (k + 1) j hlt' hlt
      · rw [if_neg hw] at hlt
        omega

/-- C7: `waitForLogin` never performs a login call; an unknown server
name yields the `error` status with no effects; an already-positive
status is returned immediately with no polling; the number of sleeps
performed never exceeds `tries`; and when the entry status is not
positive the returned value is the status observed after the final
sleep, every status observed before it being `Waiting`. -/
theorem claimC7_theorem :
    (∀ tries, waitForLogin none tries = (loginStatusError, []))
    ∧ (∀ (f : Nat → Int) (tries : Nat), f 0 > 0 →
        waitForLogin (some f) tries = (f 0, []))
    ∧ (∀ (f : Nat → Int) (tries : Nat),
        BrokerEffect.loginCall ∉ (waitForLogin (some f) tries).2)
    ∧ (∀ (f : Nat → Int) (tries : Nat),
        (waitForLogin (some f) tries).2.length ≤ tries)
    ∧ (∀ (f : Nat → Int) (tries : Nat), ¬ f 0 > 0 →
        (waitForLogin (some f) tries).1 =
          f ((waitForLogin (some f) tries).2.length)
        ∧ (∀ j < (waitForLogin (some f) tries).2.length,
            f j = loginStatusWaiting)) := by
  refine ⟨fun tries => rfl, ?_, ?_, ?_, ?_⟩
  · intro f tries h
    simp [waitForLogin, h]
  · intro f tries
    by_cases h : f 0 > 0
    · simp [waitForLogin, h]
    · simp [waitForLogin, h, List.mem_replicate]
  · intro f tries
    by_cases h : f 0 > 0
    · simp [waitForLogin, h]
    · simpa [waitForLogin, h] using waitLoopPolls_le f tries 0
  · intro f tries h
    have hw : waitForLogin (some f) tries =
        (f (waitLoopPolls f 0 tries),
         List.replicate (waitLoopPolls f 0 tries) BrokerEffect.sleep) := by
      simp [waitForLogin, h]
    rw [hw]
    constructor
    · simp
    · intro j hj
      simp only [List.length_replicate] at hj
      exact waitLoopPolls_waiting f tries 0 j (Nat.zero_le j) hj

/-- Witness status stream for `claimC7_theorem`: `Waiting` for two
ticks, then `LoggedIn`. -/
def fWitC7 : Nat → Int := fun k => if k < 2 then loginStatusWaiting else loginStatusYes

/-- Witness for `claimC7_theorem`: polling stops after two sleeps with
the positive status, having observed only `Waiting` before it. -/
theorem claimC7_witness :
    ¬ fWitC7 0 > 0
    ∧ (waitForLogin (some fWitC7) 10).1 =
        fWitC7 ((waitForLogin (some fWitC7) 10).2.length)
    ∧ (∀ j < (waitForLogin (some fWitC7) 10).2.length,
        fWitC7 j = loginStatusWaiting)
    ∧ (waitForLogin (some fWitC7) 10).1 = loginStatusYes
    ∧ (waitForLogin (some fWitC7) 10).2.length = 2 :=
  ⟨by decide,
   (claimC7_theorem.2.2.2.2 fWitC7 10 (by decide)).1,
   (claimC7_theorem.2.2.2.2 fWitC7 10 (by decide)).2,
   by decide, by decide⟩

/-! ## Deep-field (cross-server join) resolution — `loadDeepEntities` /
`_loadDeepField` (service-base.ts, claims C1 and C5)

A raw foreign-key slot holds a number, an object (possibly carrying the
id field), JS `null`, or `undefined`; after resolution it holds a
foreign entity or an array of them.  The foreign service located through
the broker's entity directory is a function from the extracted ids and
the projected sub-field list to the entities it returns; the calls
issued to it and the log lines emitted are recorded. -/

inductive RId where
  | num : Nat → RId
  | obj : Option Nat → RId
  | jsnull : RId
  | undef : RId
deriving DecidableEq, Repr

structure FEnt where
  id : Nat
  name : String
deriving DecidableEq, Repr

inductive DVal where
  | raw : RId → DVal
  | rawArr : List RId → DVal
  | ent : FEnt → DVal
  | entArr : List FEnt → DVal
deriving DecidableEq, Repr

structure HEnt where
  id : Nat
  fields : List (String × DVal)
deriving DecidableEq, Repr

structure FSvc where
  srvName : String
  getByIds : List RId → List (Option String) → List FEnt

inductive DLog where
  | warnNotFound (field : String) (ids : List RId)
  | warnSameServer (entityType : String)
  | errNoService (entityType : String)
  | errWrongIds (entityType : String)
deriving DecidableEq, Repr

/-- Is the log line a WARN-level line? -/
def isWarnLog : DLog → Bool
  | .warnNotFound _ _ => true
  | .warnSameServer _ => true
  | _ => false

/-- `f.split('.')` (JS `String.split` on a dot). -/
def splitDotAux : List Char → List Char → List String
  | [], acc => [String.mk acc.reverse]
  | c :: cs, acc =>
      if c = '.' then String.mk acc.reverse :: splitDotAux cs []
      else splitDotAux cs (c :: acc)

def splitDot (s : String) : List String := splitDotAux s.data []

/-- `f.split('.')[0]`. -/
def splitHead (s : String) : String := (splitDot s).headD s

/-- `f.split('.')[1]` (`none` = JS `undefined`). -/
def splitSecond (s : String) : Option String :=
  match splitDot s with
  | _ :: x :: _ => some x
  | _ => none

/-- `f.indexOf('.') > 0 ? f.split('.')[0] : f`. -/
def topSegment (f : String) : String :=
  match splitDot f with
  | first :: _ :: _ => if first = "" then f else first
  | _ => f

/-- `Array.from(new Set(xs))`: keep first occurrences in order (the
`seen` accumulator holds the values already emitted). -/
def jsUniqueAux : List String → List String → List String
  | [], _ => []
  | x :: xs, seen =>
      if x ∈ seen then jsUniqueAux xs seen else x :: jsUniqueAux xs (x :: seen)

def jsUniqueStr (l : List String) : List String := jsUniqueAux l []

/-- The `forFields` computed by `loadDeepEntities`: top-level segments of
the query fields that are configured in `deepFields`, deduplicated. -/
def forFieldsOf (deepFields : List (String × String)) (qf : List String) :
    List String :=
  jsUniqueStr ((qf.map topSegment).filter (fun f => (jsGet deepFields f).isSome))

/-- The sub-field list forwarded to the foreign `getByIds` for one deep
field: second segments of the query fields whose first segment is the
field. -/
def subFieldsOf (qf : List String) (field : String) : List (Option String) :=
  (qf.filter (fun f => splitHead f = field)).map splitSecond

/-- The raw id(s) of one deep field of one entity:
`Array.isArray(val) ? val : [val]`, with resolved objects contributing
their id-carrying object form and a missing field contributing
`[undefined]`. -/
def fieldIds (e : HEnt) (field : String) : List RId :=
  match jsGet e.fields field with
  | some (DVal.raw r) => [r]
  | some (DVal.rawArr l) => l
  | some (DVal.ent fe) => [RId.obj (some fe.id)]
  | some (DVal.entArr fes) => fes.map (fun fe => RId.obj (some fe.id))
  | none => [RId.undef]

/-- `Array.isArray(val)` for the deep-field slot. -/
def fieldIsArr (e : HEnt) (field : String) : Bool :=
  match jsGet e.fields field with
  | some (DVal.rawArr _) => true
  | some (DVal.entArr _) => true
  | _ => false

/-- The `ids.map(...)` conversion of `_loadDeepField`: an object value
contributes its truthy id field, an object without (truthy) id throws
(`none`); other values pass through unchanged. -/
def extractId : RId → Option RId
  | RId.obj (some n) => if n ≠ 0 then some (RId.num n) else none
  | RId.obj none => none
  | r => some r

/-- `ids.map(...)` inside the `try`: left to right, aborting on the
first throw. -/
def extractIds : List RId → Option (List RId)
  | [] => some []
  | r :: rest =>
      match extractId r with
      | none => none
      | some r' =>
          match extractIds rest with
          | none => none
          | some rest' => some (r' :: rest')

/-- `_loadDeepField(entityType, ids, fields)`: locate the foreign
service in the directory (error-logged `null` when absent), warn when it
lives on the host's own server, convert the ids (error-logged `null` on
a bad object), and issue the single batched `getByIds` for this call.
Returns (result, getByIds calls issued, log lines). -/
def loadDeepField (hostSrvName : String) (dir : String → Option FSvc)
    (entityType : String) (ids : List RId) (flds : List (Option String)) :
    Option (List FEnt) × List (String × List RId) × List DLog :=
  match dir entityType with
  | none => (none, [], [DLog.errNoService entityType])
  | some svc =>
      let same := if svc.srvName = hostSrvName
                  then [DLog.warnSameServer entityType] else []
      match extractIds ids with
      | none => (none, [], same ++ [DLog.errWrongIds entityType])
      | some realIds => (some (svc.getByIds realIds flds), [(entityType, realIds)], same)

/-- The body of the inner `for(const field of forFields)` loop for one
entity and one field: on a `null` result keep the field (warning when
ids were requested); otherwise replace the field by the resolved array
(array slot) or by the first resolved entity — `undefined` when nothing
came back (scalar slot). -/
def loadEntityField (hostSrvName : String) (dir : String → Option FSvc)
    (deepFields : List (String × String)) (qf : List String)
    (e : HEnt) (field : String) :
    HEnt × List (String × List RId) × List DLog :=
  let flds := subFieldsOf qf field
  let entityType := (jsGet deepFields field).getD ""
  let ids := fieldIds e field
  let r := loadDeepField hostSrvName dir entityType ids flds
  match r.1 with
  | none =>
      (e, r.2.1,
       r.2.2 ++ (if ids.length > 0 then [DLog.warnNotFound field ids] else []))
  | some fes =>
      let newVal := if fieldIsArr e field then DVal.entArr fes
                    else (match fes with
                          | [] => DVal.raw RId.undef
                          | fe :: _ => DVal.ent fe)
      ({ e with fields := jsSet e.fields field newVal }, r.2.1, r.2.2)

/-- The inner field loop over one entity. -/
def loadEntityDeepFields (hostSrvName : String) (dir : String → Option FSvc)
    (deepFields : List (String × String)) (qf : List String) :
    HEnt → List String → HEnt × List (String × List RId) × List DLog
  | e, [] => (e, [], [])
  | e, field :: rest =>
      let r1 := loadEntityField hostSrvName dir deepFields qf e field
      let r2 := loadEntityDeepFields hostSrvName dir deepFields qf r1.1 rest
      (r2.1, r1.2.1 ++ r2.2.1, r1.2.2 ++ r2.2.2)

/-- The outer entity loop. -/
def loadEntitiesLoop (hostSrvName : String) (dir : String → Option FSvc)
    (deepFields : List (String × String)) (qf : List String)
    (ff : List String) :
    List HEnt → List HEnt × List (String × List RId) × List DLog
  | [] => ([], [], [])
  | e :: rest =>
      let r1 := loadEntityDeepFields hostSrvName dir deepFields qf e ff
      let r2 := loadEntitiesLoop hostSrvName dir deepFields qf ff rest
      (r1.1 :: r2.1, r1.2.1 ++ r2.2.1, r1.2.2 ++ r2.2.2)

/-- `loadDeepEntities(forEntities, queryFields)`: no-op when
`deepFields` is unset; defaults the field list to the first entity's
keys; computes `forFields` and exits early when empty; then resolves
each configured deep field of each entity.  Returns the (mutated)
entities with the recorded `getByIds` calls and log lines. -/
def loadDeepEntities (hostSrvName : String)
    (deepFields : Option (List (String × String)))
    (dir : String → Option FSvc) (forEntities : List HEnt)
    (queryFields : Option (List String)) :
    List HEnt × List (String × List RId) × List DLog :=
  match deepFields with
  | none => (forEntities, [], [])
  | some df =>
      let qf := match queryFields with
                | some l => l
                | none => match forEntities with
                          | [] => []
                          | e :: _ => "id" :: e.fields.map Prod.fst
      let ff := forFieldsOf df qf
      if ff.length = 0 then (forEntities, [], [])
      else loadEntitiesLoop hostSrvName dir df qf ff forEntities

theorem jsUniqueAux_nodup : ∀ (l seen : List String),
    (jsUniqueAux l seen).Nodup ∧ ∀ y ∈ jsUniqueAux l seen, y ∉ seen := by
  intro l
  induction l with
  | nil => intro seen; exact ⟨List.nodup_nil, by simp [jsUniqueAux]⟩
  | cons x xs ih =>
      intro seen
      unfold jsUniqueAux
      split
      · exact ih seen
      · next hx =>
          obtain ⟨hnd, hmem⟩ := ih (x :: seen)
          constructor
          · rw [List.nodup_cons]
            exact ⟨fun hmem' => (hmem x hmem') (List.mem_cons_self _ _), hnd⟩
          · intro y hy hyseen
            rcases List.mem_cons.mp hy with heq | hy'
            · subst heq; exact hx hyseen
            · exact (hmem y hy') (List.mem_cons_of_mem _ hyseen)

theorem jsUniqueStr_nodup (l : List String) : (jsUniqueStr l).Nodup :=
  (jsUniqueAux_nodup l []).1

theorem forFieldsOf_nodup (df : List (String × String)) (qf : List String) :
    (forFieldsOf df qf).Nodup := jsUniqueStr_nodup _

theorem loadEntityField_calls_one (host : String) (dir : String → Option FSvc)
    (df : List (String × String)) (qf : List String) (e : HEnt) (field : String)
    (hsvc : (dir ((jsGet df field).getD "")).isSome = true)
    (hex : (extractIds (fieldIds e field)).isSome = true) :
    (loadEntityField host dir df qf e field).2.1.length = 1 := by
  cases hd : dir ((jsGet df field).getD "") with
  | none => rw [hd] at hsvc; simp at hsvc
  | some svc =>
      cases hx : extractIds (fieldIds e field) with
      | none => rw [hx] at hex; simp at hex
      | some realIds =>
          simp only [loadEntityField, loadDeepField, hd, hx]
          rfl

theorem loadEntityField_fields_other (host : String) (dir : String → Option FSvc)
    (df : List (String × String)) (qf : List String) (e : HEnt)
    (field f' : String) (h : f' ≠ field) :
    jsGet (loadEntityField host dir df qf e field).1.fields f' =
      jsGet e.fields f' := by
  unfold loadEntityField
  dsimp only
  cases hr : (loadDeepField host dir ((jsGet df field).getD "")
      (fieldIds e field) (subFieldsOf qf field)).1 with
  | none => simp [hr]
  | some fes => simp [hr, jsGet_jsSet_other _ _ _ _ h]

theorem loadEntityField_fieldIds_other (host : String) (dir : String → Option FSvc)
    (df : List (String × String)) (qf : List String) (e : HEnt)
    (field f' : String) (h : f' ≠ field) :
    fieldIds (loadEntityField host dir df qf e field).1 f' = fieldIds e f' := by
  unfold fieldIds
  rw [loadEntityField_fields_other host dir df qf e field f' h]

theorem loadEntityDeepFields_calls (host : String) (dir : String → Option FSvc)
    (df : List (String × String)) (qf : List String) :
    ∀ (ff : List String) (e : HEnt),
    ff.Nodup →
    (∀ field ∈ ff, (dir ((jsGet df field).getD "")).isSome = true) →
    (∀ field ∈ ff, (extractIds (fieldIds e field)).isSome = true) →
    (loadEntityDeepFields host dir df qf e ff).2.1.length = ff.length := by
  intro ff
  induction ff with
  | nil => intro e _ _ _; rfl
  | cons field rest ih =>
      intro e hnodup hsvc hex
      have h1 := loadEntityField_calls_one host dir df qf e field
        (hsvc field (List.mem_cons_self _ _)) (hex field (List.mem_cons_self _ _))
      have hrest : ∀ f' ∈ rest,
          (extractIds (fieldIds (loadEntityField host dir df qf e field).1 f')).isSome
            = true := by
        intro f' hf'
        have hne : f' ≠ field := by
          intro heq; subst heq
          exact (List.nodup_cons.mp hnodup).1 hf'
        rw [loadEntityField_fieldIds_other host dir df qf e field f' hne]
        exact hex f' (List.mem_cons_of_mem _ hf')
      unfold loadEntityDeepFields
      dsimp only
      rw [List.length_append, h1,
        ih (loadEntityField host dir df qf e field).1 (List.nodup_cons.mp hnodup).2
          (fun f hf => hsvc f (List.mem_cons_of_mem _ hf)) hrest]
      simp [Nat.add_comm]

theorem loadEntitiesLoop_calls (host : String) (dir : String → Option FSvc)
    (df : List (String × String)) (qf : List String) (ff : List String)
    (hnodup : ff.Nodup)
    (hsvc : ∀ field ∈ ff, (dir ((jsGet df field).getD "")).isSome = true) :
    ∀ (ents : List HEnt),
    (∀ e ∈ ents, ∀ field ∈ ff, (extractIds (fieldIds e field)).isSome = true) →
    (loadEntitiesLoop host dir df qf ff ents).2.1.length =
      ents.length * ff.length := by
  intro ents
  induction ents with
  | nil => intro _; simp [loadEntitiesLoop]
  | cons e rest ih =>
      intro hex
      unfold loadEntitiesLoop
      dsimp only
      rw [List.length_append,
        loadEntityDeepFields_calls host dir df qf ff e hnodup hsvc
          (hex e (List.mem_cons_self _ _)),
        ih (fun e' he' => hex e' (List.mem_cons_of_mem _ he'))]
      simp [Nat.succ_mul, Nat.add_comm]

/-- The foreign-entity directory for the C1/C5 scenarios: the `users`
entity type is served by a service returning one user entity per
numeric id requested. -/
def dirUsers : String → Option FSvc := fun n =>
  if n = "users" then
    some { srvName := "usersSrv",
           getByIds := fun ids _ => ids.filterMap (fun r =>
             match r with
             | RId.num k => some ⟨k, "user"⟩
             | _ => none) }
  else none

/-- C1 (counterexample): a result batch of two entities with one
configured deep field (`author → users`) produces TWO `getByIds` calls
to the foreign service — one per entity, each carrying only that
entity's foreign key — not one batched call for the whole batch. -/
theorem claimC1_counterexample :
    (loadDeepEntities "host" (some [("author", "users")]) dirUsers
      [⟨1, [("author", DVal.raw (RId.num 7))]⟩,
       ⟨2, [("author", DVal.raw (RId.num 8))]⟩]
      (some ["id", "author"])).2.1 =
      [("users", [RId.num 7]), ("users", [RId.num 8])]
    ∧ (loadDeepEntities "host" (some [("author", "users")]) dirUsers
      [⟨1, [("author", DVal.raw (RId.num 7))]⟩,
       ⟨2, [("author", DVal.raw (RId.num 8))]⟩]
      (some ["id", "author"])).2.1.length ≠ 1 := by
  decide

/-- C1 (amended): deep-field resolution issues exactly one `getByIds`
call per entity per distinct configured deep field of the query — the
foreign keys are batched only within one entity's field value — so a
batch of `n` entities with `m` applicable deep fields issues `n * m`
calls (given the foreign services exist and every id converts). -/
theorem claimC1_theorem :
    ∀ (host : String) (df : List (String × String)) (dir : String → Option FSvc)
      (ents : List HEnt) (qf : List String),
    (∀ field ∈ forFieldsOf df qf, (dir ((jsGet df field).getD "")).isSome = true) →
    (∀ e ∈ ents, ∀ field ∈ forFieldsOf df qf,
        (extractIds (fieldIds e field)).isSome = true) →
    (loadDeepEntities host (some df) dir ents (some qf)).2.1.length =
      ents.length * (forFieldsOf df qf).length := by
  intro host df dir ents qf hsvc hex
  unfold loadDeepEntities
  dsimp only
  split
  · next hz => simp [hz]
  · exact loadEntitiesLoop_calls host dir df qf (forFieldsOf df qf)
      (forFieldsOf_nodup df qf) hsvc ents hex

/-- Witness for `claimC1_theorem` at the two-entity, one-field batch:
2 × 1 calls are issued. -/
theorem claimC1_witness :
    (∀ field ∈ forFieldsOf [("author", "users")] ["id", "author"],
       (dirUsers ((jsGet [("author", "users")] field).getD "")).isSome = true)
    ∧ (∀ e ∈ [(⟨1, [("author", DVal.raw (RId.num 7))]⟩ : HEnt),
              ⟨2, [("author", DVal.raw (RId.num 8))]⟩],
       ∀ field ∈ forFieldsOf [("author", "users")] ["id", "author"],
       (extractIds (fieldIds e field)).isSome = true)
    ∧ (loadDeepEntities "host" (some [("author", "users")]) dirUsers
        [⟨1, [("author", DVal.raw (RId.num 7))]⟩,
         ⟨2, [("author", DVal.raw (RId.num 8))]⟩]
        (some ["id", "author"])).2.1.length = 2 * 1 :=
  ⟨by decide, by decide,
   by
    have h := claimC1_theorem "host" [("author", "users")] dirUsers
      [⟨1, [("author", DVal.raw (RId.num 7))]⟩,
       ⟨2, [("author", DVal.raw (RId.num 8))]⟩]
      ["id", "author"] (by decide) (by decide)
    rw [h]
    decide⟩

theorem loadEntitiesLoop_entities_length (host : String)
    (dir : String → Option FSvc) (df : List (String × String))
    (qf : List String) (ff : List String) :
    ∀ (ents : List HEnt),
    (loadEntitiesLoop host dir df qf ff ents).1.length = ents.length := by
  intro ents
  induction ents with
  | nil => rfl
  | cons e rest ih =>
      unfold loadEntitiesLoop
      dsimp only
      rw [List.length_cons, ih, List.length_cons]

/-- The `users` service of the C5 counterexample: the foreign id
resolves to nothing (`getByIds` returns the empty array). -/
def dirUsersEmpty : String → Option FSvc := fun n =>
  if n = "users" then
    some { srvName := "usersSrv", getByIds := fun _ _ => [] }
  else none

/-- C5 (counterexample): entity `{id:10, author:7}` with
`deepFields = {author:'users'}` whose foreign id resolves to nothing:
the host entity is returned with the field set to `undefined` (a gap),
but NO warning is logged — the warn branch fires only when
`_loadDeepField` returns `null` (missing service / malformed id), not
when the foreign `getByIds` comes back empty — contradicting the
claim's "warning-logged gap". -/
theorem claimC5_counterexample :
    (loadDeepEntities "host" (some [("author", "users")]) dirUsersEmpty
      [⟨10, [("author", DVal.raw (RId.num 7))]⟩] (some ["id", "author"])).1 =
      [⟨10, [("author", DVal.raw RId.undef)]⟩]
    ∧ (loadDeepEntities "host" (some [("author", "users")]) dirUsersEmpty
      [⟨10, [("author", DVal.raw (RId.num 7))]⟩]
      (some ["id", "author"])).2.2.filter isWarnLog = []
    ∧ ([] : List DLog).length = 0 := by
  decide

/-- C5 (amended): deep-field resolution preserves value shape — a
scalar foreign id is replaced by the single resolved entity object and
an array of ids by exactly the array the foreign `getByIds` returned
(hence in input order whenever the foreign service answers in request
order); a scalar id resolving to nothing leaves the field `undefined`
with no log line at all (in particular no warning), while the host
batch is always returned in full, without a fatal error. -/
theorem claimC5_theorem :
    (∀ (host : String) (dir : String → Option FSvc)
       (df : List (String × String)) (qf : List String) (e : HEnt)
       (field : String) (svc : FSvc) (n : Nat) (fe : FEnt),
      jsGet e.fields field = some (DVal.raw (RId.num n)) →
      dir ((jsGet df field).getD "") = some svc →
      svc.getByIds [RId.num n] (subFieldsOf qf field) = [fe] →
      jsGet (loadEntityField host dir df qf e field).1.fields field =
        some (DVal.ent fe))
    ∧ (∀ (host : String) (dir : String → Option FSvc)
       (df : List (String × String)) (qf : List String) (e : HEnt)
       (field : String) (svc : FSvc) (l realIds : List RId),
      jsGet e.fields field = some (DVal.rawArr l) →
      extractIds l = some realIds →
      dir ((jsGet df field).getD "") = some svc →
      jsGet (loadEntityField host dir df qf e field).1.fields field =
        some (DVal.entArr (svc.getByIds realIds (subFieldsOf qf field))))
    ∧ (∀ (host : String) (dir : String → Option FSvc)
       (df : List (String × String)) (qf : List String) (e : HEnt)
       (field : String) (svc : FSvc) (n : Nat),
      jsGet e.fields field = some (DVal.raw (RId.num n)) →
      dir ((jsGet df field).getD "") = some svc →
      svc.srvName ≠ host →
      svc.getByIds [RId.num n] (subFieldsOf qf field) = [] →
      jsGet (loadEntityField host dir df qf e field).1.fields field =
        some (DVal.raw RId.undef)
      ∧ (loadEntityField host dir df qf e field).2.2 = [])
    ∧ (∀ (host : String) (dfo : Option (List (String × String)))
       (dir : String → Option FSvc) (ents : List HEnt)
       (qfo : Option (List String)),
      (loadDeepEntities host dfo dir ents qfo).1.length = ents.length) := by
  refine ⟨?_, ?_, ?_, ?_⟩
  · intro host dir df qf e field svc n fe hval hd hres
    have hids : fieldIds e field = [RId.num n] := by simp [fieldIds, hval]
    have hisarr : fieldIsArr e field = false := by simp [fieldIsArr, hval]
    have hex : extractIds [RId.num n] = some [RId.num n] := by
      simp [extractIds, extractId]
    simp only [loadEntityField, loadDeepField, hd, hids, hex, hisarr, hres]
    simp [jsGet_jsSet_self]
  · intro host dir df qf e field svc l realIds hval hex hd
    have hids : fieldIds e field = l := by simp [fieldIds, hval]
    have hisarr : fieldIsArr e field = true := by simp [fieldIsArr, hval]
    simp only [loadEntityField, loadDeepField, hd, hids, hex, hisarr]
    simp [jsGet_jsSet_self]
  · intro host dir df qf e field svc n hval hd hname hres
    have hids : fieldIds e field = [RId.num n] := by simp [fieldIds, hval]
    have hisarr : fieldIsArr e field = false := by simp [fieldIsArr, hval]
    have hex : extractIds [RId.num n] = some [RId.num n] := by
      simp [extractIds, extractId]
    constructor
    · simp only [loadEntityField, loadDeepField, hd, hids, hex, hisarr, hres]
      simp [jsGet_jsSet_self]
    · simp only [loadEntityField, loadDeepField, hd, hids, hex, hisarr, hres]
      simp [hname]
  · intro host dfo dir ents qfo
    cases dfo with
    | none => rfl
    | some df =>
        unfold loadDeepEntities
        dsimp only
        split
        · rfl
        · exact loadEntitiesLoop_entities_length host dir df _ _ ents

/-- Witness for `claimC5_theorem`: the spec scenario `{id:10, author:7}`
with the `users` adapter returning `[{id:7,name:'user'}]` — after
resolution the field holds the object. -/
theorem claimC5_witness :
    jsGet (⟨10, [("author", DVal.raw (RId.num 7))]⟩ : HEnt).fields "author" =
      some (DVal.raw (RId.num 7))
    ∧ jsGet (loadEntityField "host" dirUsers [("author", "users")]
        ["id", "author"] ⟨10, [("author", DVal.raw (RId.num 7))]⟩
        "author").1.fields "author" = some (DVal.ent ⟨7, "user"⟩)
    ∧ (loadDeepEntities "host" (some [("author", "users")]) dirUsers
        [⟨10, [("author", DVal.raw (RId.num 7))]⟩]
        (some ["id", "author"])).1.length = 1 :=
  ⟨by decide,
   claimC5_theorem.1 "host" dirUsers [("author", "users")] ["id", "author"]
     ⟨10, [("author", DVal.raw (RId.num 7))]⟩ "author"
     { srvName := "usersSrv",
       getByIds := fun ids _ => ids.filterMap (fun r =>
         match r with
         | RId.num k => some ⟨k, "user"⟩
         | _ => none) }
     7 ⟨7, "user"⟩ (by decide) rfl (by decide),
   claimC5_theorem.2.2.2 "host" (some [("author", "users")]) dirUsers
     [⟨10, [("author", DVal.raw (RId.num 7))]⟩] (some ["id", "author"])⟩

/-! ## Canonical query builder — `DB_Query.filter` / `deepMerge`
(query.type.ts, claim C4)

A filter tree node is a JS object: an association list of keys to
values, where a value is either a nested object (a deeper filter level
or an operator object) or an operator payload (scalar; the builder's
comparison methods all build one-key operator objects `{_op: scalar}`,
so payloads sit only under operator keys).  Payloads are modelled as
opaque `prim`s: the `instanceof Object` test of `deepMerge` is false for
them so the merge recursion never descends into them. -/

inductive FV where
  | prim : Nat → FV
  | obj : List (String × FV) → FV
deriving Repr

/-- `Object.assign(target, source)`: write every source binding onto the
target in order. -/
def jsAssign (target source : List (String × FV)) : List (String × FV) :=
  source.foldl (fun t kv => jsSet t kv.1 kv.2) target

mutual
/-- `deepMerge(target, source)` of `DB_Query`: for each source key whose
value is an object and which exists on the target, replace the source
value by the recursive merge of the two values; then assign the
processed source onto the target.  (In the source the intermediate
`Object.assign(source[key], …)` only reorders the keys of the merged
value; the embedding keeps the target-first order, with the same
key-value mapping.)  A non-object source contributes no keys, leaving
the target. -/
def deepMerge : FV → FV → FV
  | FV.obj tf, FV.obj sf => FV.obj (jsAssign tf (mergeSourceFields tf sf))
  | t, _ => t
termination_by t s => sizeOf s

/-- The `for (const key of Object.keys(source))` loop of `deepMerge`. -/
def mergeSourceFields (tf : List (String × FV)) :
    List (String × FV) → List (String × FV)
  | [] => []
  | (k, v) :: rest =>
      (k, match v, jsGet tf k with
          | FV.obj vf, some tv => deepMerge tv (FV.obj vf)
          | _, _ => v) :: mergeSourceFields tf rest
termination_by l => sizeOf l
end

/-- The nested `{seg1: {seg2: … {segN: condition}}}` skeleton built by
`filter()`'s `reduce` over the dotted path segments. -/
def skeleton : List String → FV → FV
  | [], cond => cond
  | seg :: rest, cond => FV.obj [(seg, skeleton rest cond)]

/-- `filter(field, condition)` of `DB_Query`: start from `{}` when the
query has no filter yet, build the path skeleton ending in the operator
object, and deep-merge it into the existing tree. -/
def builderFilter (q : Option FV) (fieldPath : String) (cond : FV) : FV :=
  deepMerge (q.getD (FV.obj [])) (skeleton (splitDot fieldPath) cond)

/-- `equal(field, value)`: `filter(field, {_eq: value})`. -/
def builderEqual (q : Option FV) (fieldPath : String) (value : Nat) : FV :=
  builderFilter q fieldPath (FV.obj [("_eq", FV.prim value)])

/-- Walk a dotted path through a filter tree. -/
def lookupPath : FV → List String → Option FV
  | v, [] => some v
  | FV.obj tf, s :: rest =>
      match jsGet tf s with
      | some v => lookupPath v rest
      | none => none
  | FV.prim _, _ :: _ => none

/-- Every value met along the path (root included) is an object — true
of every tree the builder constructs along its field paths. -/
def objAlong : FV → List String → Bool
  | FV.prim _, _ => false
  | FV.obj _, [] => true
  | FV.obj tf, s :: rest =>
      match jsGet tf s with
      | none => true
      | some tv => objAlong tv rest

/-- The value at the path, if present, is not an object — true of
operator-key slots, which the builder only ever fills with payloads. -/
def notObjAt (t : FV) (p : List String) : Bool :=
  match lookupPath t p with
  | some (FV.obj _) => false
  | _ => true

theorem deepMerge_single (tf : List (String × FV)) (s : String)
    (wf : List (String × FV)) :
    deepMerge (FV.obj tf) (FV.obj [(s, FV.obj wf)]) =
      FV.obj (jsSet tf s (match jsGet tf s with
        | some tv => deepMerge tv (FV.obj wf)
        | none => FV.obj wf)) := by
  cases hg : jsGet tf s <;>
    simp [deepMerge, mergeSourceFields, jsAssign, hg]

theorem deepMerge_single_prim (tf : List (String × FV)) (s : String) (a : Nat) :
    deepMerge (FV.obj tf) (FV.obj [(s, FV.prim a)]) =
      FV.obj (jsSet tf s (FV.prim a)) := by
  simp [deepMerge, mergeSourceFields, jsAssign]

theorem deepMerge_prim (n : Nat) (s : FV) :
    deepMerge (FV.prim n) s = FV.prim n := by
  cases s <;> simp [deepMerge]

theorem skeleton_obj (segs : List String) (cf : List (String × FV)) :
    ∃ wf, skeleton segs (FV.obj cf) = FV.obj wf := by
  cases segs with
  | nil => exact ⟨cf, rfl⟩
  | cons seg rest => exact ⟨[(seg, skeleton rest (FV.obj cf))], rfl⟩

theorem skel_lookup : ∀ (segs : List String) (cond : FV),
    lookupPath (skeleton segs cond) segs = some cond := by
  intro segs
  induction segs with
  | nil => intro cond; cases cond <;> rfl
  | cons seg rest ih =>
      intro cond
      simp [skeleton, lookupPath, jsGet, ih]

theorem skel_lookup_divergent :
    ∀ (p' : List String) (x y : String) (qx : List String) (c2 : FV),
    x ≠ y →
    lookupPath (skeleton (p' ++ [y]) c2) (p' ++ x :: qx) = none := by
  intro p'
  induction p' with
  | nil =>
      intro x y qx c2 hxy
      have hyx : ¬ y = x := fun h => hxy h.symm
      simp [skeleton, lookupPath, jsGet, hyx]
  | cons s p'' ih =>
      intro x y qx c2 hxy
      simp [skeleton, lookupPath, jsGet, ih x y qx c2 hxy]

theorem skel_objAlong :
    ∀ (p' : List String) (x y : String) (c1 : FV), x ≠ y →
    objAlong (skeleton (p' ++ [x]) c1) (p' ++ [y]) = true := by
  intro p'
  induction p' with
  | nil =>
      intro x y c1 hxy
      simp [skeleton, objAlong, jsGet, hxy]
  | cons s p'' ih =>
      intro x y c1 hxy
      simp [skeleton, objAlong, jsGet, ih x y c1 hxy]

theorem mergeSkel_frame :
    ∀ (p : List String) (t : FV) (x y : String) (qx : List String)
      (cf : List (String × FV)), x ≠ y →
    lookupPath (deepMerge t (skeleton (p ++ [y]) (FV.obj cf))) (p ++ x :: qx) =
      lookupPath t (p ++ x :: qx) := by
  intro p
  induction p with
  | nil =>
      intro t x y qx cf hxy
      cases t with
      | prim n => rw [deepMerge_prim]
      | obj tf =>
          show lookupPath (deepMerge (FV.obj tf) (FV.obj [(y, FV.obj cf)])) (x :: qx) = _
          rw [deepMerge_single]
          show (match jsGet (jsSet tf y _) x with
                | some v => lookupPath v qx
                | none => none) = _
          rw [jsGet_jsSet_other tf y x _ hxy]
          rfl
  | cons s p' ih =>
      intro t x y qx cf hxy
      cases t with
      | prim n => rw [deepMerge_prim]
      | obj tf =>
          obtain ⟨wf, hwf⟩ := skeleton_obj (p' ++ [y]) cf
          show lookupPath (deepMerge (FV.obj tf)
            (FV.obj [(s, skeleton (p' ++ [y]) (FV.obj cf))])) (s :: (p' ++ x :: qx)) = _
          rw [hwf, deepMerge_single]
          show (match jsGet (jsSet tf s _) s with
                | some v => lookupPath v (p' ++ x :: qx)
                | none => none) = _
          rw [jsGet_jsSet_self]
          cases hg : jsGet tf s with
          | none =>
              show lookupPath (FV.obj wf) (p' ++ x :: qx) = _
              rw [← hwf, skel_lookup_divergent p' x y qx (FV.obj cf) hxy]
              simp [lookupPath, hg]
          | some tv =>
              show lookupPath (deepMerge tv (FV.obj wf)) (p' ++ x :: qx) = _
              rw [← hwf, ih tv x y qx cf hxy]
              simp [lookupPath, hg]

theorem mergeSkel_objAlong :
    ∀ (p : List String) (t : FV) (x y : String) (cf : List (String × FV)),
    x ≠ y → objAlong t (p ++ [y]) = true →
    objAlong (deepMerge t (skeleton (p ++ [x]) (FV.obj cf))) (p ++ [y]) = true := by
  intro p
  induction p with
  | nil =>
      intro t x y cf hxy halong
      cases t with
      | prim n => simpa [objAlong] using halong
      | obj tf =>
          show objAlong (deepMerge (FV.obj tf) (FV.obj [(x, FV.obj cf)])) [y] = true
          rw [deepMerge_single]
          show (match jsGet (jsSet tf x _) y with
                | none => true
                | some tv => objAlong tv []) = true
          rw [jsGet_jsSet_other tf x y _ (fun h => hxy h.symm)]
          simpa [objAlong] using halong
  | cons s p' ih =>
      intro t x y cf hxy halong
      cases t with
      | prim n => simpa [objAlong] using halong
      | obj tf =>
          obtain ⟨wf, hwf⟩ := skeleton_obj (p' ++ [x]) cf
          show objAlong (deepMerge (FV.obj tf)
            (FV.obj [(s, skeleton (p' ++ [x]) (FV.obj cf))])) (s :: (p' ++ [y])) = true
          rw [hwf, deepMerge_single]
          show (match jsGet (jsSet tf s _) s with
                | none => true
                | some tv => objAlong tv (p' ++ [y])) = true
          rw [jsGet_jsSet_self]
          cases hg : jsGet tf s with
          | none =>
              show objAlong (FV.obj wf) (p' ++ [y]) = true
              rw [← hwf]
              exact skel_objAlong p' x y (FV.obj cf) hxy
          | some tv =>
              show objAlong (deepMerge tv (FV.obj wf)) (p' ++ [y]) = true
              rw [← hwf]
              refine ih tv x y cf hxy ?_
              have : objAlong (FV.obj tf) (s :: (p' ++ [y])) = true := halong
              rw [objAlong, hg] at this
              exact this

theorem mergeSkel_insert :
    ∀ (segs : List String) (t : FV) (op : String) (a : Nat),
    segs ≠ [] → objAlong t segs = true →
    ∃ fs, lookupPath (deepMerge t (skeleton segs (FV.obj [(op, FV.prim a)]))) segs
        = some (FV.obj fs) ∧ jsGet fs op = some (FV.prim a) := by
  intro segs
  induction segs with
  | nil => intro t op a hne _; exact absurd rfl hne
  | cons s rest ih =>
      intro t op a _ halong
      cases t with
      | prim n => simp [objAlong] at halong
      | obj tf =>
          cases rest with
          | nil =>
              show ∃ fs, lookupPath (deepMerge (FV.obj tf)
                (FV.obj [(s, FV.obj [(op, FV.prim a)])])) [s] = some (FV.obj fs) ∧ _
              rw [deepMerge_single]
              cases hg : jsGet tf s with
              | none =>
                  refine ⟨[(op, FV.prim a)], ?_, by simp [jsGet]⟩
                  simp [lookupPath, jsGet_jsSet_self, hg]
              | some tv =>
                  have htv : objAlong tv [] = true := by
                    have := halong
                    rw [objAlong, hg] at this
                    exact this
                  cases tv with
                  | prim m => simp [objAlong] at htv
                  | obj tvf =>
                      refine ⟨jsSet tvf op (FV.prim a), ?_, jsGet_jsSet_self _ _ _⟩
                      simp [lookupPath, jsGet_jsSet_self, hg, deepMerge_single_prim]
          | cons r rs =>
              obtain ⟨wf, hwf⟩ := skeleton_obj (r :: rs) [(op, FV.prim a)]
              show ∃ fs, lookupPath (deepMerge (FV.obj tf)
                (FV.obj [(s, skeleton (r :: rs) (FV.obj [(op, FV.prim a)]))]))
                (s :: r :: rs) = some (FV.obj fs) ∧ _
              rw [hwf, deepMerge_single]
              cases hg : jsGet tf s with
              | none =>
                  have hsk : lookupPath (FV.obj wf) (r :: rs) =
                      some (FV.obj [(op, FV.prim a)]) := by
                    rw [← hwf]; exact skel_lookup _ _
                  refine ⟨[(op, FV.prim a)], ?_, by simp [jsGet]⟩
                  simp only [lookupPath, jsGet_jsSet_self]
                  simp only [lookupPath] at hsk
                  exact hsk
              | some tv =>
                  have htv : objAlong tv (r :: rs) = true := by
                    have := halong
                    rw [objAlong, hg] at this
                    exact this
                  obtain ⟨fs, hfs, hop⟩ := ih tv op a (by simp) htv
                  have hfs' : lookupPath (deepMerge tv (FV.obj wf)) (r :: rs) =
                      some (FV.obj fs) := by
                    rw [← hwf]; exact hfs
                  refine ⟨fs, ?_, hop⟩
                  simp [lookupPath, jsGet_jsSet_self, hfs']

theorem mergeSkel_preserve :
    ∀ (segs : List String) (t : FV) (op : String) (a : Nat) (q : List String),
    notObjAt t (segs ++ [op]) = true →
    (lookupPath t q).isSome = true →
    (lookupPath (deepMerge t (skeleton segs (FV.obj [(op, FV.prim a)]))) q).isSome
      = true := by
  intro segs
  induction segs with
  | nil =>
      intro t op a q hop hq
      cases t with
      | prim n => rw [deepMerge_prim]; exact hq
      | obj tf =>
          show (lookupPath (deepMerge (FV.obj tf) (FV.obj [(op, FV.prim a)])) q).isSome
            = true
          rw [deepMerge_single_prim]
          cases q with
          | nil => rfl
          | cons k q' =>
              by_cases hk : k = op
              · subst hk
                rw [show lookupPath (FV.obj (jsSet tf k (FV.prim a))) (k :: q') =
                    lookupPath (FV.prim a) q' from by
                  simp [lookupPath, jsGet_jsSet_self]]
                cases hg : jsGet tf k with
                | none => simp [lookupPath, hg] at hq
                | some w =>
                    have hwprim : ∀ wf, w ≠ FV.obj wf := by
                      intro wf hwf
                      subst hwf
                      simp [notObjAt, lookupPath, hg] at hop
                    cases q' with
                    | nil => rfl
                    | cons c q'' =>
                        rw [show lookupPath (FV.obj tf) (k :: c :: q'') =
                            lookupPath w (c :: q'') from by simp [lookupPath, hg]] at hq
                        cases w with
                        | prim m => simp [lookupPath] at hq
                        | obj wf => exact absurd rfl (hwprim wf)
              · rw [show lookupPath (FV.obj (jsSet tf op (FV.prim a))) (k :: q') =
                    lookupPath (FV.obj tf) (k :: q') from by
                  simp [lookupPath, jsGet_jsSet_other tf op k _ hk]]
                exact hq
  | cons s segs' ih =>
      intro t op a q hop hq
      cases t with
      | prim n => rw [deepMerge_prim]; exact hq
      | obj tf =>
          obtain ⟨wf, hwf⟩ := skeleton_obj segs' [(op, FV.prim a)]
          show (lookupPath (deepMerge (FV.obj tf)
            (FV.obj [(s, skeleton segs' (FV.obj [(op, FV.prim a)]))])) q).isSome = true
          rw [hwf, deepMerge_single]
          cases q with
          | nil => rfl
          | cons k q' =>
              by_cases hk : k = s
              · subst hk
                cases hg : jsGet tf k with
                | none => simp [lookupPath, hg] at hq
                | some tv =>
                    rw [show (match some tv with
                         | some tv => deepMerge tv (FV.obj wf)
                         | none => FV.obj wf) = deepMerge tv (FV.obj wf) from rfl]
                    rw [show lookupPath
                        (FV.obj (jsSet tf k (deepMerge tv (FV.obj wf)))) (k :: q') =
                        lookupPath (deepMerge tv (FV.obj wf)) q' from by
                      simp [lookupPath, jsGet_jsSet_self]]
                    have hq' : (lookupPath tv q').isSome = true := by
                      rw [show lookupPath (FV.obj tf) (k :: q') =
                          lookupPath tv q' from by simp [lookupPath, hg]] at hq
                      exact hq
                    have hop' : notObjAt tv (segs' ++ [op]) = true := by
                      have : notObjAt (FV.obj tf) (k :: (segs' ++ [op])) = true := hop
                      simp only [notObjAt, lookupPath, hg] at this ⊢
                      exact this
                    rw [← hwf]
                    exact ih tv op a q' hop' hq'
              · rw [show lookupPath (FV.obj (jsSet tf s
                    (match jsGet tf s with
                     | some tv => deepMerge tv (FV.obj wf)
                     | none => FV.obj wf))) (k :: q') =
                    lookupPath (FV.obj tf) (k :: q') from by
                  simp [lookupPath, jsGet_jsSet_other tf s k _ hk]]
                exact hq

/-- C4: two `filter()` calls (as issued by `equal` or any comparison
method) on dotted paths sharing a parent list `p` but with distinct
leaves `x ≠ y` both survive in the final tree — the first leaf's
operator binding is untouched by the second merge and the second leaf's
binding is present as its sibling — and no path present in the original
filter tree is dropped at any nesting level.  The hypotheses state what
holds of every builder-constructed tree: values along field paths are
objects, and operator slots hold payloads, not objects. -/
theorem claimC4_theorem :
    ∀ (q : Option FV) (fieldPath1 fieldPath2 : String) (p : List String)
      (x y op1 op2 : String) (a1 a2 : Nat),
    splitDot fieldPath1 = p ++ [x] →
    splitDot fieldPath2 = p ++ [y] →
    x ≠ y →
    objAlong (q.getD (FV.obj [])) (p ++ [x]) = true →
    objAlong (q.getD (FV.obj [])) (p ++ [y]) = true →
    notObjAt (q.getD (FV.obj [])) (p ++ [x] ++ [op1]) = true →
    notObjAt (q.getD (FV.obj [])) (p ++ [y] ++ [op2]) = true →
    (∃ fs, lookupPath
        (builderFilter
          (some (builderFilter q fieldPath1 (FV.obj [(op1, FV.prim a1)])))
          fieldPath2 (FV.obj [(op2, FV.prim a2)]))
        (p ++ [x]) = some (FV.obj fs) ∧ jsGet fs op1 = some (FV.prim a1))
    ∧ (∃ fs, lookupPath
        (builderFilter
          (some (builderFilter q fieldPath1 (FV.obj [(op1, FV.prim a1)])))
          fieldPath2 (FV.obj [(op2, FV.prim a2)]))
        (p ++ [y]) = some (FV.obj fs) ∧ jsGet fs op2 = some (FV.prim a2))
    ∧ (∀ qq, (lookupPath (q.getD (FV.obj [])) qq).isSome = true →
        (lookupPath
          (builderFilter
            (some (builderFilter q fieldPath1 (FV.obj [(op1, FV.prim a1)])))
            fieldPath2 (FV.obj [(op2, FV.prim a2)]))
          qq).isSome = true) := by
  intro q f1 f2 p x y op1 op2 a1 a2 hs1 hs2 hxy hax hay hnx hny
  have hr1 : builderFilter q f1 (FV.obj [(op1, FV.prim a1)]) =
      deepMerge (q.getD (FV.obj []))
        (skeleton (p ++ [x]) (FV.obj [(op1, FV.prim a1)])) := by
    rw [builderFilter, hs1]
  have hr2 : builderFilter (some (builderFilter q f1 (FV.obj [(op1, FV.prim a1)])))
      f2 (FV.obj [(op2, FV.prim a2)]) =
      deepMerge (builderFilter q f1 (FV.obj [(op1, FV.prim a1)]))
        (skeleton (p ++ [y]) (FV.obj [(op2, FV.prim a2)])) := by
    rw [builderFilter, hs2]
    rfl
  have hyx : y ≠ x := fun h => hxy h.symm
  have hpathy : p ++ [y] ++ [op2] = p ++ y :: [op2] := by simp
  have hpathx : p ++ [x] = p ++ x :: [] := by simp
  refine ⟨?_, ?_, ?_⟩
  · obtain ⟨fs, hfs, hop⟩ := mergeSkel_insert (p ++ [x]) (q.getD (FV.obj []))
      op1 a1 (by simp) hax
    refine ⟨fs, ?_, hop⟩
    rw [hr2, hr1]
    rw [hpathx, mergeSkel_frame p
      (deepMerge (q.getD (FV.obj [])) (skeleton (p ++ [x]) (FV.obj [(op1, FV.prim a1)])))
      x y [] [(op2, FV.prim a2)] hxy, ← hpathx]
    exact hfs
  · have hay1 : objAlong (deepMerge (q.getD (FV.obj []))
        (skeleton (p ++ [x]) (FV.obj [(op1, FV.prim a1)]))) (p ++ [y]) = true :=
      mergeSkel_objAlong p (q.getD (FV.obj [])) x y [(op1, FV.prim a1)] hxy hay
    obtain ⟨fs, hfs, hop⟩ := mergeSkel_insert (p ++ [y])
      (deepMerge (q.getD (FV.obj [])) (skeleton (p ++ [x]) (FV.obj [(op1, FV.prim a1)])))
      op2 a2 (by simp) hay1
    refine ⟨fs, ?_, hop⟩
    rw [hr2, hr1]
    exact hfs
  · intro qq hqq
    have h1 : (lookupPath (deepMerge (q.getD (FV.obj []))
        (skeleton (p ++ [x]) (FV.obj [(op1, FV.prim a1)]))) qq).isSome = true :=
      mergeSkel_preserve (p ++ [x]) (q.getD (FV.obj [])) op1 a1 qq hnx hqq
    have hny1 : notObjAt (deepMerge (q.getD (FV.obj []))
        (skeleton (p ++ [x]) (FV.obj [(op1, FV.prim a1)]))) (p ++ [y] ++ [op2])
        = true := by
      unfold notObjAt
      rw [hpathy, mergeSkel_frame p (q.getD (FV.obj [])) y x [op2]
        [(op1, FV.prim a1)] hyx, ← hpathy]
      unfold notObjAt at hny
      exact hny
    have h2 := mergeSkel_preserve (p ++ [y])
      (deepMerge (q.getD (FV.obj [])) (skeleton (p ++ [x]) (FV.obj [(op1, FV.prim a1)])))
      op2 a2 qq hny1 h1
    rw [hr2, hr1]
    exact h2

/-- Witness for `claimC4_theorem`: the spec's own scenario —
`.equal('a.x','1')` then `.equal('a.y','2')` on a fresh builder — both
leaf conditions survive as siblings under `a`. -/
theorem claimC4_witness :
    builderEqual none "a.x" 1 = builderFilter none "a.x" (FV.obj [("_eq", FV.prim 1)])
    ∧ splitDot "a.x" = ["a"] ++ ["x"]
    ∧ splitDot "a.y" = ["a"] ++ ["y"]
    ∧ ("x" : String) ≠ "y"
    ∧ objAlong ((none : Option FV).getD (FV.obj [])) (["a"] ++ ["x"]) = true
    ∧ notObjAt ((none : Option FV).getD (FV.obj [])) (["a"] ++ ["x"] ++ ["_eq"]) = true
    ∧ (∃ fs, lookupPath
        (builderFilter (some (builderFilter none "a.x" (FV.obj [("_eq", FV.prim 1)])))
          "a.y" (FV.obj [("_eq", FV.prim 2)]))
        (["a"] ++ ["x"]) = some (FV.obj fs) ∧ jsGet fs "_eq" = some (FV.prim 1))
    ∧ (∃ fs, lookupPath
        (builderFilter (some (builderFilter none "a.x" (FV.obj [("_eq", FV.prim 1)])))
          "a.y" (FV.obj [("_eq", FV.prim 2)]))
        (["a"] ++ ["y"]) = some (FV.obj fs) ∧ jsGet fs "_eq" = some (FV.prim 2)) :=
  ⟨rfl, by decide, by decide, by decide, by decide, by decide,
   (claimC4_theorem none "a.x" "a.y" ["a"] "x" "y" "_eq" "_eq" 1 2
      (by decide) (by decide) (by decide) (by decide) (by decide)
      (by decide) (by decide)).1,
   (claimC4_theorem none "a.x" "a.y" ["a"] "x" "y" "_eq" "_eq" 1 2
      (by decide) (by decide) (by decide) (by decide) (by decide)
      (by decide) (by decide)).2.1⟩
